import Mathlib

/-!
Verification development for px, a command line argument parser.

Shallow embedding of `include/px.h`.

* An iterator into the token span is a position (`Nat`); `end` is a position too.
  Dereferencing a position outside the token sequence yields `completion.invalid_read`.
* A pointer to caller-owned storage (`T*`) is `Option Nat`: `none` is `nullptr`,
  `some p` is the address `p` in the store of that type.
* A member function that mutates the object, the cursor or bound storage returns
  the new object, cursor and store next to its completion; when it throws, what it
  returns is the state at the moment of the throw.
-/

namespace px

/-! ## Exceptions and completions -/

/-- The two exception classes thrown by the library, with their `what()` text. -/
inductive exception where
  | logic_error (what : String)
  | runtime_error (what : String)
  deriving DecidableEq, Repr

/-- How a call ends. `invalid_read` is a dereference of an iterator outside the
token sequence; `unfinished` is a loop that used up its iteration budget. -/
inductive completion where
  | normal
  | thrown (e : exception)
  | invalid_read
  | unfinished
  deriving DecidableEq, Repr

/-! ## `std::istringstream` extraction of an `int`

`stream >> t` for `T = int` with the default flags (`skipws | dec`), classic locale:
the sentry skips leading white space and fails (eofbit and failbit) when nothing
is left; then an optional sign and the longest run of decimal digits are read;
eofbit is set when reading reached the end of the token; failbit is set when no
digit was read or when the number does not fit an `int` (32 bits). -/

/-- State bits of the stream after the extraction. -/
structure istringstream where
  eofbit : Bool
  failbit : Bool
  deriving DecidableEq, Repr

def istringstream.eof (s : istringstream) : Bool := s.eofbit

def istringstream.fail (s : istringstream) : Bool := s.failbit

def INT_MIN : Int := -2147483648

def INT_MAX : Int := 2147483647

/-- White space of the classic locale. -/
def isspace (c : Char) : Bool :=
  c == ' ' || c == '\t' || c == '\n' || c == '\x0b' || c == '\x0c' || c == '\r'

/-- Value of a decimal digit character. -/
def digit_value (c : Char) : Nat := c.toNat - 48

/-- Value of a run of decimal digits, most significant first. -/
def accumulate (ds : List Char) : Nat :=
  ds.foldl (fun acc c => acc * 10 + digit_value c) 0

/-- The statement `stream >> t` on a stream holding `tok`: stream state afterwards
and the number stored in `t`. -/
def extract_int (tok : String) : istringstream × Int :=
  match tok.data.dropWhile isspace with
  | [] => ({ eofbit := true, failbit := true }, 0)
  | c :: cs =>
    let negative := c == '-'
    let body := if c == '-' || c == '+' then cs else c :: cs
    let ds := body.takeWhile Char.isDigit
    let eof := (body.dropWhile Char.isDigit).isEmpty
    if ds.isEmpty then ({ eofbit := eof, failbit := true }, 0)
    else
      let v : Int := if negative then - (accumulate ds : Int) else (accumulate ds : Int)
      if v < INT_MIN then ({ eofbit := eof, failbit := true }, INT_MIN)
      else if INT_MAX < v then ({ eofbit := eof, failbit := true }, INT_MAX)
      else ({ eofbit := eof, failbit := false }, v)

/-- The conversion step of `value_argument<T>::parse` (lines 261-275): `none` when
the step throws. -/
class token_value (T : Type) where
  convert : String → Option T

/-- `T = std::string`: the raw token is taken verbatim. -/
instance : token_value String where
  convert raw := some raw

/-- `T = int`: extraction from an `istringstream`, rejected when
`!stream.eof() || stream.fail()`. -/
instance : token_value Int where
  convert raw :=
    let r := extract_int raw
    if !r.1.eof || r.1.fail then none else some r.2

/-! ## value_argument -/

/-- Object state of `value_argument<T>` together with its `argument_base` members. -/
structure value_argument (T : Type) where
  name : String
  description : String := ""
  tag : String := ""
  long_tag : String := ""
  value : Option T := none
  default_value : Option T := none
  bound_variable : Option Nat := none
  required : Bool := false
  validation_function : T → Bool := fun _ => true

namespace value_argument

variable {T : Type}

def get_name (a : value_argument T) : String := a.name

def set_name (a : value_argument T) (n : String) : value_argument T := { a with name := n }

def get_tag (a : value_argument T) : String := a.tag

def set_tag (a : value_argument T) (t : String) : value_argument T := { a with tag := t }

def get_long_tag (a : value_argument T) : String := a.long_tag

def set_long_tag (a : value_argument T) (t : String) : value_argument T :=
  { a with long_tag := t }

def set_description (a : value_argument T) (d : String) : value_argument T :=
  { a with description := d }

/-- Lines 163-172. The pointer passed is a valid address `t`. -/
def bind (a : value_argument T) (t : Nat) (mem : Nat → T) : value_argument T × (Nat → T) :=
  let a1 := { a with bound_variable := some t }
  match a1.default_value with
  | some d => (a1, Function.update mem t d)
  | none => (a1, mem)

def is_required (a : value_argument T) : Bool := a.required

/-- Lines 180-189. -/
def set_required (a : value_argument T) (b : Bool) : completion × value_argument T :=
  if a.default_value.isSome then
    (.thrown (.logic_error "setting required on argument with default does not make sense"), a)
  else
    (.normal, { a with required := b })

/-- Lines 191-196. -/
def set_validator (a : value_argument T) (f : T → Bool) : value_argument T :=
  { a with validation_function := f }

/-- Lines 198-216. -/
def get_value (a : value_argument T) : Except exception T :=
  match a.value with
  | some v => .ok v
  | none =>
    match a.default_value with
    | some d => .ok d
    | none => .error (.runtime_error ("argument '" ++ a.get_name ++ "' does not have a value"))

/-- Lines 218-231. -/
def set_default (a : value_argument T) (d : T) (mem : Nat → T) :
    completion × value_argument T × (Nat → T) :=
  if a.is_required then
    (.thrown (.logic_error "setting default on required argument does not make sense"), a, mem)
  else
    let a1 := { a with default_value := some d }
    match a1.bound_variable with
    | some p => (.normal, a1, Function.update mem p d)
    | none => (.normal, a1, mem)

/-- Lines 239-251. -/
def is_valid (a : value_argument T) : Bool :=
  match a.value with
  | some v => a.validation_function v
  | none =>
    match a.default_value with
    | some d => a.validation_function d
    | none => !a.required

/-- Lines 253-282. `begin_` is passed by reference: the cursor is part of the result. -/
def parse [token_value T] (a : value_argument T) (tokens : List String)
    (begin_ end_ : Nat) (mem : Nat → T) : completion × value_argument T × Nat × (Nat → T) :=
  if (end_ : Int) - (begin_ : Int) > 1 then
    match tokens[begin_]? with
    | none => (.invalid_read, a, begin_, mem)
    | some tok =>
      if tok == a.get_tag || tok == a.get_long_tag then
        let b1 := begin_ + 1
        match tokens[b1]? with
        | none => (.invalid_read, a, b1, mem)
        | some raw =>
          match (token_value.convert raw : Option T) with
          | none =>
            (.thrown (.runtime_error ("could not parse from '" ++ raw ++ "'")), a, b1, mem)
          | some v =>
            let a1 := { a with value := some v }
            match a1.bound_variable with
            | some p => (.normal, a1, b1, Function.update mem p v)
            | none => (.normal, a1, b1, mem)
      else (.normal, a, begin_, mem)
  else (.normal, a, begin_, mem)

/-- Lines 157-161: the object right after construction. -/
def construct (n : String) : value_argument T := { name := n }

/-- One call on a `value_argument<T>` object. -/
inductive call (T : Type) where
  | set_name (n : String)
  | set_tag (t : String)
  | set_long_tag (t : String)
  | set_description (d : String)
  | set_default (d : T)
  | set_required (b : Bool)
  | bind (t : Nat)
  | set_validator (f : T → Bool)
  | parse (tokens : List String) (begin_ end_ : Nat)

/-- The object and the store after the call, whether it returned or threw. -/
def call.run [token_value T] (c : call T) (s : value_argument T × (Nat → T)) :
    value_argument T × (Nat → T) :=
  match c with
  | .set_name n => (s.1.set_name n, s.2)
  | .set_tag t => (s.1.set_tag t, s.2)
  | .set_long_tag t => (s.1.set_long_tag t, s.2)
  | .set_description d => (s.1.set_description d, s.2)
  | .set_default d => (s.1.set_default d s.2).2
  | .set_required b => ((s.1.set_required b).2, s.2)
  | .bind t => s.1.bind t s.2
  | .set_validator f => (s.1.set_validator f, s.2)
  | .parse tokens begin_ end_ =>
    ((s.1.parse tokens begin_ end_ s.2).2.1, (s.1.parse tokens begin_ end_ s.2).2.2.2)

end value_argument

/-! ## multi_value_argument -/

/-- Object state of `multi_value_argument<T>`. -/
structure multi_value_argument (T : Type) where
  name : String
  description : String := ""
  tag : String := ""
  long_tag : String := ""
  required : Bool := false
  value : List T := []
  default_value : Option (List T) := none
  bound_variable : Option Nat := none

namespace multi_value_argument

variable {T : Type}

/-- Lines 327-331. -/
def bind (a : multi_value_argument T) (v : Nat) : multi_value_argument T :=
  { a with bound_variable := some v }

def is_required (a : multi_value_argument T) : Bool := a.required

/-- Lines 339-344. -/
def set_required (a : multi_value_argument T) (b : Bool) : multi_value_argument T :=
  { a with required := b }

/-- Lines 346-350. -/
def is_valid (_a : multi_value_argument T) : Bool := true

/-- Lines 352-356: the body is empty. -/
def parse (a : multi_value_argument T) (_tokens : List String) (begin_ _end : Nat) :
    completion × multi_value_argument T × Nat :=
  (.normal, a, begin_)

end multi_value_argument

/-! ## flag_argument -/

/-- Object state of `flag_argument`. -/
structure flag_argument where
  name : String
  description : String := ""
  tag : String := ""
  long_tag : String := ""
  value : Bool := false
  bound_flag : Option Nat := none
  deriving DecidableEq, Repr

namespace flag_argument

def get_name (a : flag_argument) : String := a.name

def get_tag (a : flag_argument) : String := a.tag

def set_tag (a : flag_argument) (t : String) : flag_argument := { a with tag := t }

def get_long_tag (a : flag_argument) : String := a.long_tag

def set_long_tag (a : flag_argument) (t : String) : flag_argument := { a with long_tag := t }

/-- Lines 386-390. -/
def bind (a : flag_argument) (b : Nat) : flag_argument := { a with bound_flag := some b }

/-- Lines 392-395. -/
def is_valid (_a : flag_argument) : Bool := true

/-- Lines 397-405. The cursor and the store of `bool` variables are threaded through
to show what the call does to them. -/
def parse (a : flag_argument) (tokens : List String) (begin_ end_ : Nat) (mem : Nat → Bool) :
    completion × flag_argument × Nat × (Nat → Bool) :=
  if (end_ : Int) - (begin_ : Int) ≥ 1 then
    match tokens[begin_]? with
    | none => (.invalid_read, a, begin_, mem)
    | some tok =>
      if tok == a.get_tag || tok == a.get_long_tag then
        (.normal, { a with value := true }, begin_, mem)
      else (.normal, a, begin_, mem)
  else (.normal, a, begin_, mem)

/-- Lines 407-410. -/
def get_value (a : flag_argument) : Bool := a.value

/-- The flag once the tokens `seen` have each been at the cursor of a `parse` call
(used to state what the loops of `command_line::parse` compute). -/
def offered (a : flag_argument) (seen : List String) : flag_argument :=
  { a with value := a.value || seen.any (fun t => t == a.get_tag || t == a.get_long_tag) }

end flag_argument

/-! ## command_line -/

/-- Caller-owned variables that descriptors may be bound to, by type. -/
structure memory where
  bools : Nat → Bool
  ints : Nat → Int
  strings : Nat → String

/-- The descriptors a `command_line` can hold (`std::shared_ptr<argument>`), with the
value types `int` and `std::string`. -/
inductive argument where
  | flag (a : flag_argument)
  | int_value (a : value_argument Int)
  | string_value (a : value_argument String)
  | multi_int (a : multi_value_argument Int)
  | multi_string (a : multi_value_argument String)

/-- Virtual dispatch of `argument::parse`. -/
def argument.parse (arg : argument) (tokens : List String) (begin_ end_ : Nat) (mem : memory) :
    completion × argument × Nat × memory :=
  match arg with
  | .flag a =>
    let r := a.parse tokens begin_ end_ mem.bools
    (r.1, .flag r.2.1, r.2.2.1, { mem with bools := r.2.2.2 })
  | .int_value a =>
    let r := a.parse tokens begin_ end_ mem.ints
    (r.1, .int_value r.2.1, r.2.2.1, { mem with ints := r.2.2.2 })
  | .string_value a =>
    let r := a.parse tokens begin_ end_ mem.strings
    (r.1, .string_value r.2.1, r.2.2.1, { mem with strings := r.2.2.2 })
  | .multi_int a =>
    let r := a.parse tokens begin_ end_
    (r.1, .multi_int r.2.1, r.2.2, mem)
  | .multi_string a =>
    let r := a.parse tokens begin_ end_
    (r.1, .multi_string r.2.1, r.2.2, mem)

/-- Virtual dispatch of `argument::is_valid`. -/
def argument.is_valid : argument → Bool
  | .flag a => a.is_valid
  | .int_value a => a.is_valid
  | .string_value a => a.is_valid
  | .multi_int a => a.is_valid
  | .multi_string a => a.is_valid

/-- Object state of `command_line`. -/
structure command_line where
  name : String
  description : String := ""
  arguments : List argument := []

namespace command_line

/-- Lines 445-450. The handle returned is the last element of `arguments`. -/
def add_flag_argument (cl : command_line) (name : String) : command_line :=
  { cl with arguments := cl.arguments ++ [.flag { name := name }] }

/-- Lines 452-458 at `T = int`. -/
def add_int_value_argument (cl : command_line) (name : String) : command_line :=
  { cl with arguments := cl.arguments ++ [.int_value { name := name }] }

/-- Lines 452-458 at `T = std::string`. -/
def add_string_value_argument (cl : command_line) (name : String) : command_line :=
  { cl with arguments := cl.arguments ++ [.string_value { name := name }] }

/-- Lines 460-466 at `T = int`. -/
def add_multi_int_argument (cl : command_line) (name : String) : command_line :=
  { cl with arguments := cl.arguments ++ [.multi_int { name := name }] }

/-- Lines 460-466 at `T = std::string`. -/
def add_multi_string_argument (cl : command_line) (name : String) : command_line :=
  { cl with arguments := cl.arguments ++ [.multi_string { name := name }] }

/-- The inner loop of `parse` (lines 473-476): every descriptor, in registration
order, is handed the shared cursor. A throw leaves the loop at once. -/
def sweep (tokens : List String) (end_ : Nat) :
    List argument → Nat → memory → completion × List argument × Nat × memory
  | [], argv, mem => (.normal, [], argv, mem)
  | arg :: rest, argv, mem =>
    match arg.parse tokens argv end_ mem with
    | (.normal, arg1, argv1, mem1) =>
      let r := sweep tokens end_ rest argv1 mem1
      (r.1, arg1 :: r.2.1, r.2.2.1, r.2.2.2)
    | (c, arg1, argv1, mem1) => (c, arg1 :: rest, argv1, mem1)

/-- The outer loop of `parse` (lines 471-477) with an iteration budget: it stops
when the cursor equals `end_`, and steps the cursor once after every sweep. -/
def parse_loop (tokens : List String) (end_ : Nat) :
    Nat → List argument → Nat → memory → completion × List argument × memory
  | fuel, args, argv, mem =>
    if argv = end_ then (.normal, args, mem)
    else
      match fuel with
      | 0 => (.unfinished, args, mem)
      | fuel1 + 1 =>
        match sweep tokens end_ args argv mem with
        | (.normal, args1, argv1, mem1) => parse_loop tokens end_ fuel1 args1 (argv1 + 1) mem1
        | (c, args1, _, mem1) => (c, args1, mem1)

/-- Lines 468-478. One iteration per token is budgeted. -/
def parse (cl : command_line) (args : List String) (mem : memory) :
    completion × command_line × memory :=
  let r := parse_loop args args.length args.length cl.arguments 0 mem
  (r.1, { cl with arguments := r.2.1 }, r.2.2)

/-- The cursor positions at which `sweep` calls `parse` on the descriptors, in
registration order: the same recursion as `sweep`, recording the cursor of each call. -/
def sweep_cursors (tokens : List String) (end_ : Nat) :
    List argument → Nat → memory → List Nat
  | [], _, _ => []
  | arg :: rest, argv, mem =>
    match arg.parse tokens argv end_ mem with
    | (.normal, _, argv1, mem1) => argv :: sweep_cursors tokens end_ rest argv1 mem1
    | _ => [argv]

end command_line

/-! ## Reference notions used to state properties -/

/-- No token of `tokens` can make the descriptor consume anything: it is a flag or a
multi-value descriptor, or a value descriptor neither tag of which occurs in `tokens`. -/
def argument.never_consumes (tokens : List String) : argument → Bool
  | .flag _ => true
  | .multi_int _ => true
  | .multi_string _ => true
  | .int_value a => tokens.all (fun t => !(t == a.get_tag || t == a.get_long_tag))
  | .string_value a => tokens.all (fun t => !(t == a.get_tag || t == a.get_long_tag))

/-- The reference scan for a text descriptor with tags `s` and `l`: go left to right; when
the token is `s` or `l` and another token follows, record that token and continue after
it, otherwise continue at the next token. `recorded` is what has been recorded so far. -/
def reference_scan (s l : String) : List String → Option String → Option String
  | [], recorded => recorded
  | [_], recorded => recorded
  | t :: v :: rest, recorded =>
    if t == s || t == l then reference_scan s l rest (some v)
    else reference_scan s l (v :: rest) recorded

/-! ## Scenario data -/

/-- Caller variables, all zero-initialised. -/
def zero_memory : memory :=
  { bools := fun _ => false, ints := fun _ => 0, strings := fun _ => "" }

/-- The integer descriptor `"--count"`/`"-c"` with default 0. -/
def count_argument : value_argument Int :=
  { name := "count", tag := "-c", long_tag := "--count", default_value := some 0 }

/-- A context holding only `count_argument`. -/
def count_command_line : command_line :=
  { name := "prog", arguments := [.int_value count_argument] }

/-- A required integer descriptor `"--count"`/`"-c"` without default whose validator
asks for a value greater than zero. -/
def positive_count_argument : value_argument Int :=
  { name := "count", tag := "-c", long_tag := "--count", required := true,
    validation_function := fun v => decide (0 < v) }

/-- A context holding only `positive_count_argument`. -/
def positive_count_command_line : command_line :=
  { name := "prog", arguments := [.int_value positive_count_argument] }

/-- The flag descriptor with tag `"--verbose"`. -/
def verbose_flag : flag_argument := { name := "verbose", tag := "--verbose" }

/-- A context holding only `verbose_flag`. -/
def verbose_command_line : command_line :=
  { name := "prog", arguments := [.flag verbose_flag] }

/-- A context holding only `verbose_flag` bound to the `bool` variable at address 0. -/
def bound_verbose_command_line : command_line :=
  { name := "prog", arguments := [.flag (verbose_flag.bind 0)] }

/-- The text descriptor with tag `"-a"`. -/
def a_argument : value_argument String := { name := "a", tag := "-a" }

/-- The flag descriptor with tag `"-v"`. -/
def v_flag : flag_argument := { name := "v", tag := "-v" }

/-- The text descriptor `"-a"` registered before the flag `"-v"`. -/
def value_then_flag_command_line : command_line :=
  { name := "prog", arguments := [.string_value a_argument, .flag v_flag] }

/-- The flag `"-v"` registered before the text descriptor `"-a"`. -/
def flag_then_value_command_line : command_line :=
  { name := "prog", arguments := [.flag v_flag, .string_value a_argument] }

/-- A context holding only `v_flag`. -/
def v_flag_command_line : command_line :=
  { name := "prog", arguments := [.flag v_flag] }

/-- A second flag descriptor with the same tag `"-v"`. -/
def other_v_flag : flag_argument := { name := "other", tag := "-v" }

/-- Two flags sharing the tag `"-v"`. -/
def two_v_flags_command_line : command_line :=
  { name := "prog", arguments := [.flag v_flag, .flag other_v_flag] }

/-- An integer descriptor with the tag `"-v"`, the tag of `v_flag`. -/
def v_int_argument : value_argument Int := { name := "level", tag := "-v" }

/-- The flag `"-v"` registered before the integer descriptor with the same tag. -/
def flag_then_same_tag_command_line : command_line :=
  { name := "prog", arguments := [.flag v_flag, .int_value v_int_argument] }

/-- The flag `"-v"` registered before the integer descriptor `"--count"`/`"-c"`. -/
def flag_then_count_command_line : command_line :=
  { name := "prog", arguments := [.flag v_flag, .int_value count_argument] }

/-- A multi-value descriptor with tag `"-m"` marked required. -/
def required_multi_argument : multi_value_argument Int :=
  ({ name := "m", tag := "-m" } : multi_value_argument Int).set_required true

/-- A context holding only `required_multi_argument`. -/
def required_multi_command_line : command_line :=
  { name := "prog", arguments := [.multi_int required_multi_argument] }

/-- A context holding only the text descriptor `a_argument`. -/
def a_command_line : command_line :=
  { name := "prog", arguments := [.string_value a_argument] }

/-- A required integer descriptor with tag `"-c"`, no default. -/
def required_count_argument : value_argument Int :=
  { name := "count", tag := "-c", long_tag := "--count", required := true }

/-- A context holding only `required_count_argument`. -/
def required_count_command_line : command_line :=
  { name := "prog", arguments := [.int_value required_count_argument] }

/-! # Theorems -/

open command_line

/-! ## Integer extraction: decimal representations convert back -/

theorem digitChar_facts : ∀ k < 10, (Nat.digitChar k).isDigit = true ∧ digit_value (Nat.digitChar k) = k := by
  decide

theorem isDigit_not_space (c : Char) (h : c.isDigit = true) :
    isspace c = false ∧ (c == '-') = false ∧ (c == '+') = false := by
  refine ⟨?_, ?_, ?_⟩
  · by_contra hs
    simp only [Bool.not_eq_false] at hs
    simp only [isspace, Bool.or_eq_true, beq_iff_eq] at hs
    rcases hs with ((((hs | hs) | hs) | hs) | hs) | hs <;> subst hs <;> revert h <;> decide
  · by_contra hs
    simp only [Bool.not_eq_false, beq_iff_eq] at hs
    subst hs; revert h; decide
  · by_contra hs
    simp only [Bool.not_eq_false, beq_iff_eq] at hs
    subst hs; revert h; decide

theorem accumulate_snoc (ds : List Char) (d : Char) :
    accumulate (ds ++ [d]) = accumulate ds * 10 + digit_value d := by
  simp [accumulate, List.foldl_append]

theorem toDigitsCore_spec : ∀ (fuel n : Nat) (ds : List Char), n < fuel →
    ∃ L : List Char, Nat.toDigitsCore 10 fuel n ds = L ++ ds ∧ L ≠ [] ∧
      (∀ c ∈ L, c.isDigit = true) ∧ accumulate L = n := by
  intro fuel
  induction fuel with
  | zero => intro n ds h; omega
  | succ fuel ih =>
    intro n ds h
    have hd := digitChar_facts (n % 10) (Nat.mod_lt _ (by decide))
    by_cases h0 : n / 10 = 0
    · refine ⟨[Nat.digitChar (n % 10)], ?_, by simp, ?_, ?_⟩
      · simp [Nat.toDigitsCore, h0]
      · intro c hc
        simp only [List.mem_singleton] at hc
        subst hc; exact hd.1
      · have : accumulate [Nat.digitChar (n % 10)] = digit_value (Nat.digitChar (n % 10)) := by
          simp [accumulate]
        rw [this, hd.2]; omega
    · have hlt : n / 10 < fuel := by omega
      obtain ⟨L, hL, _, hdig, hacc⟩ := ih (n / 10) (Nat.digitChar (n % 10) :: ds) hlt
      refine ⟨L ++ [Nat.digitChar (n % 10)], ?_, by simp, ?_, ?_⟩
      · simp [Nat.toDigitsCore, h0, hL]
      · intro c hc
        rcases List.mem_append.mp hc with hc | hc
        · exact hdig c hc
        · simp only [List.mem_singleton] at hc
          subst hc; exact hd.1
      · rw [accumulate_snoc, hacc, hd.2]; omega

theorem repr_spec (n : Nat) : ∃ L : List Char, (Nat.repr n).data = L ∧ L ≠ [] ∧
    (∀ c ∈ L, c.isDigit = true) ∧ accumulate L = n := by
  obtain ⟨L, hL, hne, hdig, hacc⟩ := toDigitsCore_spec (n + 1) n [] (by omega)
  refine ⟨L, ?_, hne, hdig, hacc⟩
  simp [Nat.repr, Nat.toDigits, hL, List.asString]

theorem takeWhile_all {α : Type} (p : α → Bool) (L : List α) (h : ∀ c ∈ L, p c = true) :
    L.takeWhile p = L ∧ L.dropWhile p = [] := by
  induction L with
  | nil => simp
  | cons x xs ih =>
    have hx := h x (by simp)
    have := ih (fun c hc => h c (by simp [hc]))
    simp [List.takeWhile, List.dropWhile, hx, this]

/-- Extraction from a run of digits, with or without a leading minus sign. -/
theorem extract_int_digits (L : List Char) (hne : L ≠ []) (hdig : ∀ c ∈ L, c.isDigit = true)
    (hmax : (accumulate L : Int) ≤ INT_MAX) :
    extract_int ⟨L⟩ = ({ eofbit := true, failbit := false }, (accumulate L : Int)) := by
  obtain ⟨c, cs, rfl⟩ := List.exists_cons_of_ne_nil hne
  have hc := isDigit_not_space c (hdig c (by simp))
  have htd := takeWhile_all Char.isDigit (c :: cs) hdig
  have hmin : ¬ ((accumulate (c :: cs) : Int) < INT_MIN) := by
    have : (0 : Int) ≤ (accumulate (c :: cs) : Int) := Int.ofNat_nonneg _
    simp only [INT_MIN]; omega
  have hmax2 : ¬ (INT_MAX < (accumulate (c :: cs) : Int)) := by omega
  have h1 : (c :: cs).dropWhile isspace = c :: cs := by simp [List.dropWhile, hc.1]
  unfold extract_int
  simp only [h1, hc.2.1, hc.2.2, Bool.or_self, Bool.false_eq_true, if_false, htd.1, htd.2]
  simp [hmin, hmax2]

theorem extract_int_neg_digits (L : List Char) (hne : L ≠ []) (hdig : ∀ c ∈ L, c.isDigit = true)
    (hmin : INT_MIN ≤ - (accumulate L : Int)) :
    extract_int ⟨'-' :: L⟩ = ({ eofbit := true, failbit := false }, - (accumulate L : Int)) := by
  have htd := takeWhile_all Char.isDigit L hdig
  have hsp : isspace '-' = false := by decide
  have hmin2 : ¬ (- (accumulate L : Int) < INT_MIN) := by omega
  have hmax2 : ¬ (INT_MAX < - (accumulate L : Int)) := by
    have : (0 : Int) ≤ (accumulate L : Int) := Int.ofNat_nonneg _
    simp only [INT_MAX]; omega
  have h1 : ('-' :: L).dropWhile isspace = '-' :: L := by simp [List.dropWhile, hsp]
  unfold extract_int
  have hm : (('-' : Char) == '-') = true := by decide
  simp only [h1, hm, Bool.true_or, if_true, htd.1, htd.2]
  simp [hne, hmin2, hmax2]

theorem extract_int_repr (n : Int) (hlo : INT_MIN ≤ n) (hhi : n ≤ INT_MAX) :
    extract_int (Int.repr n) = ({ eofbit := true, failbit := false }, n) := by
  cases n with
  | ofNat m =>
    obtain ⟨L, hL, hne, hdig, hacc⟩ := repr_spec m
    have hs : Int.repr (Int.ofNat m) = ⟨L⟩ := by
      simp only [Int.repr]; rw [← hL]
    rw [hs, extract_int_digits L hne hdig (by rw [hacc]; exact hhi), hacc]; rfl
  | negSucc m =>
    obtain ⟨L, hL, hne, hdig, hacc⟩ := repr_spec (m + 1)
    have hs : Int.repr (Int.negSucc m) = ⟨'-' :: L⟩ := by
      simp only [Int.repr]; rw [← hL]; rfl
    have hv : - (accumulate L : Int) = Int.negSucc m := by
      rw [hacc]; rfl
    rw [hs, extract_int_neg_digits L hne hdig (by rw [hv]; exact hlo), hv]

theorem convert_int_repr (n : Int) (hlo : INT_MIN ≤ n) (hhi : n ≤ INT_MAX) :
    (token_value.convert (Int.repr n) : Option Int) = some n := by
  simp [token_value.convert, extract_int_repr n hlo hhi, istringstream.eof, istringstream.fail]

/-! ## Single calls and single loop iterations -/

section value_steps
variable {T : Type} [token_value T]

theorem value_parse_miss (a : value_argument T) (tokens : List String) (i : Nat) (mem : Nat → T)
    (h : tokens.length ≤ i + 1 ∨ ∀ tok, tokens[i]? = some tok → tok ≠ a.tag ∧ tok ≠ a.long_tag) :
    a.parse tokens i tokens.length mem = (.normal, a, i, mem) := by
  unfold value_argument.parse
  by_cases hd : ((tokens.length : Nat) : Int) - (i : Int) > 1
  · have hi : i < tokens.length := by omega
    rcases h with h | h
    · omega
    · have hget : tokens[i]? = some tokens[i] := List.getElem?_eq_getElem hi
      obtain ⟨h1, h2⟩ := h _ hget
      simp [hd, hget, value_argument.get_tag, value_argument.get_long_tag, h1, h2]
  · simp [hd]

theorem value_parse_hit (a : value_argument T) (tokens : List String) (i : Nat) (mem : Nat → T)
    (tok raw : String) (v : T) (h0 : tokens[i]? = some tok) (h1 : tokens[i + 1]? = some raw)
    (ht : tok = a.tag ∨ tok = a.long_tag) (hv : (token_value.convert raw : Option T) = some v) :
    a.parse tokens i tokens.length mem =
      (.normal, { a with value := some v }, i + 1,
        match a.bound_variable with
        | some p => Function.update mem p v
        | none => mem) := by
  have hi : i + 1 < tokens.length := by
    by_contra hc
    rw [List.getElem?_eq_none (by omega)] at h1
    exact absurd h1 (by simp)
  have hd : ((tokens.length : Nat) : Int) - (i : Int) > 1 := by omega
  have hm : (tok == a.tag || tok == a.long_tag) = true := by
    rcases ht with ht | ht <;> simp [ht]
  unfold value_argument.parse
  simp only [hd, if_true, h0, h1, value_argument.get_tag, value_argument.get_long_tag, hm, hv]
  cases a.bound_variable <;> rfl

theorem value_parse_throw (a : value_argument T) (tokens : List String) (i : Nat) (mem : Nat → T)
    (tok raw : String) (h0 : tokens[i]? = some tok) (h1 : tokens[i + 1]? = some raw)
    (ht : tok = a.tag ∨ tok = a.long_tag) (hv : (token_value.convert raw : Option T) = none) :
    a.parse tokens i tokens.length mem =
      (.thrown (.runtime_error ("could not parse from '" ++ raw ++ "'")), a, i + 1, mem) := by
  have hi : i + 1 < tokens.length := by
    by_contra hc
    rw [List.getElem?_eq_none (by omega)] at h1
    exact absurd h1 (by simp)
  have hd : ((tokens.length : Nat) : Int) - (i : Int) > 1 := by omega
  have hm : (tok == a.tag || tok == a.long_tag) = true := by
    rcases ht with ht | ht <;> simp [ht]
  unfold value_argument.parse
  simp only [hd, if_true, h0, h1, value_argument.get_tag, value_argument.get_long_tag, hm, hv]

end value_steps

theorem sweep_single (tokens : List String) (e : Nat) (arg : argument) (i : Nat) (mem : memory) :
    sweep tokens e [arg] i mem =
      ((arg.parse tokens i e mem).1, [(arg.parse tokens i e mem).2.1],
        (arg.parse tokens i e mem).2.2.1, (arg.parse tokens i e mem).2.2.2) := by
  unfold sweep
  rcases hp : arg.parse tokens i e mem with ⟨c, arg1, i1, mem1⟩
  cases c <;> simp [sweep]

theorem parse_loop_end (tokens : List String) (e fuel : Nat) (args : List argument)
    (mem : memory) : parse_loop tokens e fuel args e mem = (.normal, args, mem) := by
  unfold parse_loop; simp

theorem parse_loop_step (tokens : List String) (e fuel : Nat) (args : List argument)
    (i : Nat) (mem : memory) (h : i ≠ e) :
    parse_loop tokens e (fuel + 1) args i mem =
      match sweep tokens e args i mem with
      | (.normal, args1, argv1, mem1) => parse_loop tokens e fuel args1 (argv1 + 1) mem1
      | (c, args1, _, mem1) => (c, args1, mem1) := by
  rw [parse_loop]; simp [h]

/-- Positions at which the sweep changes nothing are stepped over one by one. -/
theorem parse_loop_skip (tokens : List String) (e : Nat) (args : List argument) (mem : memory) :
    ∀ (k fuel i : Nat), i + k ≤ e → k ≤ fuel →
      (∀ j, i ≤ j → j < i + k → sweep tokens e args j mem = (.normal, args, j, mem)) →
      parse_loop tokens e fuel args i mem = parse_loop tokens e (fuel - k) args (i + k) mem := by
  intro k
  induction k with
  | zero => intro fuel i _ _ _; simp
  | succ k ih =>
    intro fuel i hik hf hs
    obtain ⟨fuel1, rfl⟩ : ∃ f, fuel = f + 1 := ⟨fuel - 1, by omega⟩
    rw [parse_loop_step tokens e fuel1 args i mem (by omega), hs i (le_refl _) (by omega)]
    simp only
    rw [ih fuel1 (i + 1) (by omega) (by omega) (fun j h1 h2 => hs j (by omega) (by omega))]
    congr 1 <;> omega

/-! ## A context holding one integer descriptor -/

theorem sweep_int_miss (a : value_argument Int) (tokens : List String) (j : Nat) (mem : memory)
    (h : tokens.length ≤ j + 1 ∨ ∀ tok, tokens[j]? = some tok → tok ≠ a.tag ∧ tok ≠ a.long_tag) :
    sweep tokens tokens.length [.int_value a] j mem = (.normal, [.int_value a], j, mem) := by
  rw [sweep_single]
  simp only [argument.parse, value_parse_miss a tokens j mem.ints h]

theorem sweep_int_hit (a : value_argument Int) (tokens : List String) (i : Nat) (mem : memory)
    (tok raw : String) (v : Int) (h0 : tokens[i]? = some tok) (h1 : tokens[i + 1]? = some raw)
    (ht : tok = a.tag ∨ tok = a.long_tag) (hv : (token_value.convert raw : Option Int) = some v) :
    sweep tokens tokens.length [.int_value a] i mem =
      (.normal, [.int_value { a with value := some v }], i + 1,
        { mem with ints := match a.bound_variable with
                           | some p => Function.update mem.ints p v
                           | none => mem.ints }) := by
  rw [sweep_single]
  simp only [argument.parse, value_parse_hit a tokens i mem.ints tok raw v h0 h1 ht hv]

theorem sweep_int_throw (a : value_argument Int) (tokens : List String) (i : Nat) (mem : memory)
    (tok raw : String) (h0 : tokens[i]? = some tok) (h1 : tokens[i + 1]? = some raw)
    (ht : tok = a.tag ∨ tok = a.long_tag) (hv : (token_value.convert raw : Option Int) = none) :
    sweep tokens tokens.length [.int_value a] i mem =
      (.thrown (.runtime_error ("could not parse from '" ++ raw ++ "'")),
        [.int_value a], i + 1, mem) := by
  rw [sweep_single]
  simp only [argument.parse, value_parse_throw a tokens i mem.ints tok raw h0 h1 ht hv]

/-- From a position after which the tag no longer matches, the loop runs to the end
of the tokens and leaves the single descriptor and the stores as they are. -/
theorem parse_loop_int_no_match (a : value_argument Int) (tokens : List String) (mem : memory)
    (fuel i : Nat) (hi : i ≤ tokens.length) (hf : tokens.length - i ≤ fuel)
    (h : ∀ j, i ≤ j → j < tokens.length →
      (tokens.length ≤ j + 1 ∨ ∀ tok, tokens[j]? = some tok → tok ≠ a.tag ∧ tok ≠ a.long_tag)) :
    parse_loop tokens tokens.length fuel [.int_value a] i mem = (.normal, [.int_value a], mem) := by
  rw [parse_loop_skip tokens tokens.length [.int_value a] mem (tokens.length - i) fuel i
    (by omega) hf (fun j h1 h2 => sweep_int_miss a tokens j mem (h j h1 (by omega)))]
  have : i + (tokens.length - i) = tokens.length := by omega
  rw [this, parse_loop_end]

theorem getElem?_mid (pre post : List String) (t lit : String) :
    (pre ++ [t, lit] ++ post)[pre.length]? = some t ∧
    (pre ++ [t, lit] ++ post)[pre.length + 1]? = some lit := by
  constructor
  · rw [List.append_assoc, List.getElem?_append_right (le_refl _)]; simp
  · rw [List.append_assoc, List.getElem?_append_right (by omega)]; simp

theorem getElem?_mem_of_lt_pre (pre rest : List String) (j : Nat) (tok : String)
    (hj : j < pre.length) (h : (pre ++ rest)[j]? = some tok) : tok ∈ pre := by
  rw [List.getElem?_append_left hj] at h
  exact List.getElem?_mem h

theorem getElem?_mem_of_ge_post (front post : List String) (j : Nat) (tok : String)
    (hj : front.length ≤ j) (h : (front ++ post)[j]? = some tok) : tok ∈ post := by
  rw [List.getElem?_append_right hj] at h
  exact List.getElem?_mem h

/-- Single int descriptor, tag-free prefix, then tag and value token, then tag-free rest. -/
theorem parse_loop_int_one_match (a : value_argument Int) (pre post : List String)
    (t raw : String) (v : Int) (mem : memory)
    (ht : t = a.tag ∨ t = a.long_tag)
    (hpre : ∀ x ∈ pre, x ≠ a.tag ∧ x ≠ a.long_tag)
    (hpost : ∀ x ∈ post, x ≠ a.tag ∧ x ≠ a.long_tag)
    (hv : (token_value.convert raw : Option Int) = some v) :
    parse_loop (pre ++ [t, raw] ++ post) (pre ++ [t, raw] ++ post).length
        (pre ++ [t, raw] ++ post).length [.int_value a] 0 mem =
      (.normal, [.int_value { a with value := some v }],
        { mem with ints := match a.bound_variable with
                           | some p => Function.update mem.ints p v
                           | none => mem.ints }) := by
  generalize hT : pre ++ [t, raw] ++ post = tokens
  have hlen : tokens.length = pre.length + 2 + post.length := by
    rw [← hT]; simp [List.length_append]; omega
  obtain ⟨hg0, hg1⟩ := getElem?_mid pre post t raw
  rw [hT] at hg0 hg1
  rw [parse_loop_skip tokens tokens.length [.int_value a] mem pre.length tokens.length 0
    (by omega) (by omega) (fun j _ h2 => sweep_int_miss a tokens j mem (Or.inr (fun tok htok => by
      rw [← hT, List.append_assoc] at htok
      exact hpre tok (getElem?_mem_of_lt_pre pre _ j tok (by omega) htok))))]
  have hfuel : tokens.length - pre.length = (post.length + 1) + 1 := by omega
  rw [hfuel, Nat.zero_add, parse_loop_step tokens tokens.length _ _ _ _ (by omega),
    sweep_int_hit a tokens pre.length mem t raw v hg0 hg1 ht hv]
  simp only
  apply parse_loop_int_no_match
  · omega
  · omega
  · intro j hj1 hj2
    refine Or.inr (fun tok htok => ?_)
    rw [← hT] at htok
    exact hpost tok (getElem?_mem_of_ge_post (pre ++ [t, raw]) post j tok
      (by simp [List.length_append]; omega) htok)

/-! ## Value descriptors: resolution, validity, conversion -/

/-- C1: in a context whose only descriptor is an integer value descriptor `V` with a
default `D` and no resolved value yet, (a) parsing tokens none of which equals a tag of
`V` ends normally, leaves the context as it was, and `get_value` returns `D`; (b) parsing
`pre ++ [t, lit] ++ post`, where `t` is a tag of `V`, no token of `pre` or `post` is a
tag, and `lit` is the decimal representation of an `int` `n`, ends normally with the
descriptor resolved to `n`, and `get_value` returns `n`. -/
theorem parse_then_get_value_int (V : value_argument Int) (D : Int) (cl : command_line)
    (T : List String) (mem : memory)
    (hcl : cl.arguments = [argument.int_value V])
    (hfresh : V.value = none) (hdef : V.default_value = some D) :
    ((∀ x ∈ T, x ≠ V.get_tag ∧ x ≠ V.get_long_tag) →
        cl.parse T mem = (.normal, cl, mem) ∧ V.get_value = .ok D) ∧
    (∀ (pre post : List String) (t lit : String) (n : Int),
        T = pre ++ [t, lit] ++ post → (t = V.get_tag ∨ t = V.get_long_tag) →
        (∀ x ∈ pre, x ≠ V.get_tag ∧ x ≠ V.get_long_tag) →
        (∀ x ∈ post, x ≠ V.get_tag ∧ x ≠ V.get_long_tag) →
        INT_MIN ≤ n → n ≤ INT_MAX → lit = Int.repr n →
        (cl.parse T mem).1 = .normal ∧
        (cl.parse T mem).2.1.arguments = [.int_value { V with value := some n }] ∧
        value_argument.get_value { V with value := some n } = .ok n) := by
  constructor
  · intro hT
    constructor
    · have hl := parse_loop_int_no_match V T mem T.length 0 (Nat.zero_le _) (by omega)
        (fun j _ _ => Or.inr (fun tok htok => hT tok (List.getElem?_mem htok)))
      simp only [command_line.parse, hcl, hl]
      cases cl
      simp only at hcl
      simp [hcl]
    · simp [value_argument.get_value, hfresh, hdef]
  · intro pre post t lit n hT ht hpre hpost hlo hhi hlit
    subst hT
    have hv := convert_int_repr n hlo hhi
    rw [← hlit] at hv
    have hl := parse_loop_int_one_match V pre post t lit n mem ht hpre hpost hv
    refine ⟨?_, ?_, ?_⟩
    · simp only [command_line.parse, hcl, hl]
    · simp only [command_line.parse, hcl, hl]
    · simp [value_argument.get_value]

/-- The scenario of C1: tokens `["prog", "-c", "42"]` give 42, tokens `["prog"]` give
the default 0. -/
theorem parse_then_get_value_int_witness :
    ((count_command_line.parse ["prog", "-c", "42"] zero_memory).1 = .normal ∧
      (count_command_line.parse ["prog", "-c", "42"] zero_memory).2.1.arguments =
        [.int_value { count_argument with value := some 42 }] ∧
      value_argument.get_value { count_argument with value := some 42 } = .ok 42) ∧
    (count_command_line.parse ["prog"] zero_memory =
        (.normal, count_command_line, zero_memory) ∧
      count_argument.get_value = .ok 0) :=
  ⟨(parse_then_get_value_int count_argument 0 count_command_line ["prog", "-c", "42"]
      zero_memory rfl rfl rfl).2 ["prog"] [] "-c" "42" 42 rfl (Or.inl rfl)
      (by decide) (by simp) (by decide) (by decide) (by decide),
   (parse_then_get_value_int count_argument 0 count_command_line ["prog"]
      zero_memory rfl rfl rfl).1 (by decide)⟩

/-- C2: `get_value` returns the resolved value when there is one (whether or not a
default is present), otherwise the default when there is one, otherwise it throws the
runtime error "argument '<name>' does not have a value"; it throws if and only if
neither a resolved value nor a default is present. -/
theorem get_value_precedence {T : Type} (a : value_argument T) :
    a.get_value =
      (match a.value, a.default_value with
       | some v, _ => Except.ok v
       | none, some d => Except.ok d
       | none, none =>
         Except.error (.runtime_error ("argument '" ++ a.name ++ "' does not have a value"))) ∧
    ((∃ e, a.get_value = Except.error e) ↔ (a.value = none ∧ a.default_value = none)) := by
  unfold value_argument.get_value value_argument.get_name
  cases hv : a.value <;> cases hd : a.default_value <;> simp

/-- C3: `is_valid` is the validator applied to the resolved value when there is one,
else the validator applied to the default when there is one, else `!required`. A
required descriptor without default stays invalid when the parsed tokens hold none of
its tags, and the descriptor whose validator asks for a value greater than zero is
invalid after parsing `["-c", "0"]` although 0 was resolved. -/
theorem is_valid_rule {T : Type} (a : value_argument T) (V : value_argument Int)
    (cl : command_line) (tokens : List String) (mem : memory) :
    a.is_valid =
      (match a.value, a.default_value with
       | some v, _ => a.validation_function v
       | none, some d => a.validation_function d
       | none, none => !a.required) ∧
    (cl.arguments = [argument.int_value V] → V.value = none → V.default_value = none →
      V.required = true → (∀ x ∈ tokens, x ≠ V.get_tag ∧ x ≠ V.get_long_tag) →
      cl.parse tokens mem = (.normal, cl, mem) ∧ V.is_valid = false) ∧
    ((positive_count_command_line.parse ["-c", "0"] zero_memory).1 = .normal ∧
      (positive_count_command_line.parse ["-c", "0"] zero_memory).2.1.arguments =
        [.int_value { positive_count_argument with value := some 0 }] ∧
      value_argument.is_valid { positive_count_argument with value := some 0 } = false) := by
  refine ⟨?_, ?_, ?_, ?_, ?_⟩
  · unfold value_argument.is_valid
    cases a.value <;> cases a.default_value <;> rfl
  · intro hcl hv hd hr hT
    constructor
    · have hl := parse_loop_int_no_match V tokens mem tokens.length 0 (Nat.zero_le _) (by omega)
        (fun j _ _ => Or.inr (fun tok htok => hT tok (List.getElem?_mem htok)))
      simp only [command_line.parse, hcl, hl]
      cases cl
      simp only at hcl
      simp [hcl]
    · simp [value_argument.is_valid, hv, hd, hr]
  · decide
  · rfl
  · rfl

/-- The first scenario of C3: the required descriptor without default, tokens
`["prog"]`. -/
theorem is_valid_rule_witness :
    positive_count_command_line.parse ["prog"] zero_memory =
      (.normal, positive_count_command_line, zero_memory) ∧
    positive_count_argument.is_valid = false :=
  (is_valid_rule positive_count_argument positive_count_argument positive_count_command_line
    ["prog"] zero_memory).2.1 rfl rfl rfl rfl (by decide)

/-- C4: when the tag of an integer value descriptor matches at the cursor and a token
`raw` follows, `parse` throws the runtime error "could not parse from '<raw>'" whenever
the extraction leaves `!stream.eof() || stream.fail()` (as for `"abc"`, `"12x"` and the
empty token), and ends normally with the value resolved when `raw` is the decimal
representation of an `int`. In a context holding only this descriptor, with no tag in
front of the match, `command_line::parse` throws the same error. -/
theorem parse_conversion_error (a : value_argument Int) (tokens : List String) (i : Nat)
    (mem : Nat → Int) (tok raw : String)
    (h0 : tokens[i]? = some tok) (h1 : tokens[i + 1]? = some raw)
    (ht : tok = a.get_tag ∨ tok = a.get_long_tag) :
    (((extract_int raw).1.eof = false ∨ (extract_int raw).1.fail = true) →
      a.parse tokens i tokens.length mem =
        (.thrown (.runtime_error ("could not parse from '" ++ raw ++ "'")), a, i + 1, mem)) ∧
    (∀ n : Int, INT_MIN ≤ n → n ≤ INT_MAX → raw = Int.repr n →
      a.parse tokens i tokens.length mem =
        (.normal, { a with value := some n }, i + 1,
          match a.bound_variable with
          | some p => Function.update mem p n
          | none => mem)) ∧
    ((extract_int "abc").1.fail = true ∧ (extract_int "12x").1.eof = false ∧
      (extract_int "").1.fail = true) ∧
    (∀ (cl : command_line) (m : memory),
      cl.arguments = [argument.int_value a] →
      (∀ x ∈ tokens.take i, x ≠ a.get_tag ∧ x ≠ a.get_long_tag) →
      ((extract_int raw).1.eof = false ∨ (extract_int raw).1.fail = true) →
      (cl.parse tokens m).1 =
        .thrown (.runtime_error ("could not parse from '" ++ raw ++ "'"))) := by
  have hi : i + 1 < tokens.length := by
    by_contra hc
    rw [List.getElem?_eq_none (by omega)] at h1
    exact absurd h1 (by simp)
  have hconv : ((extract_int raw).1.eof = false ∨ (extract_int raw).1.fail = true) →
      (token_value.convert raw : Option Int) = none := by
    intro h
    simp only [token_value.convert]
    rcases h with h | h <;> simp [h]
  refine ⟨?_, ?_, ?_, ?_⟩
  · intro h
    exact value_parse_throw a tokens i mem tok raw h0 h1 ht (hconv h)
  · intro n hlo hhi hraw
    have hv := convert_int_repr n hlo hhi
    rw [← hraw] at hv
    exact value_parse_hit a tokens i mem tok raw n h0 h1 ht hv
  · decide
  · intro cl m hcl hpre hbad
    have hskip := parse_loop_skip tokens tokens.length [.int_value a] m i tokens.length 0
      (by omega) (by omega)
      (fun j _ h2 => sweep_int_miss a tokens j m
        (Or.inr (fun tk htk => hpre tk (by
          have h3 : (tokens.take i)[j]? = some tk := by
            rw [List.getElem?_take_of_lt (by omega)]; exact htk
          exact List.getElem?_mem h3))))
    obtain ⟨f, hf⟩ : ∃ f, tokens.length - i = f + 1 := ⟨tokens.length - i - 1, by omega⟩
    rw [Nat.zero_add, hf, parse_loop_step tokens tokens.length _ _ _ _ (by omega),
      sweep_int_throw a tokens i m tok raw h0 h1 ht (hconv hbad)] at hskip
    simp only [command_line.parse, hcl, hskip]

/-- The scenario of C4: tokens `["prog", "-c", "abc"]` make `command_line::parse`
throw. -/
theorem parse_conversion_error_witness :
    (count_command_line.parse ["prog", "-c", "abc"] zero_memory).1 =
      .thrown (.runtime_error "could not parse from 'abc'") :=
  (parse_conversion_error count_argument ["prog", "-c", "abc"] 1 zero_memory.ints "-c" "abc"
    rfl rfl (Or.inl rfl)).2.2.2 count_command_line zero_memory rfl (by decide) (by decide)

/-! ## Contexts of flags -/

theorem flag_offered_nil (a : flag_argument) : a.offered [] = a := by
  simp [flag_argument.offered]

theorem flag_offered_cons (a : flag_argument) (t : String) (ts : List String) :
    (a.offered [t]).offered ts = a.offered (t :: ts) := by
  simp [flag_argument.offered, flag_argument.get_tag, flag_argument.get_long_tag, Bool.or_assoc]

theorem flag_parse_at (a : flag_argument) (tokens : List String) (i : Nat) (mem : Nat → Bool)
    (tok : String) (h0 : tokens[i]? = some tok) :
    a.parse tokens i tokens.length mem = (.normal, a.offered [tok], i, mem) := by
  have hi : i < tokens.length := by
    by_contra hc
    rw [List.getElem?_eq_none (by omega)] at h0
    exact absurd h0 (by simp)
  have hd : ((tokens.length : Nat) : Int) - (i : Int) ≥ 1 := by omega
  unfold flag_argument.parse
  simp only [hd, if_true, h0]
  by_cases hm : (tok == a.get_tag || tok == a.get_long_tag) = true
  · simp [hm, flag_argument.offered]
  · simp only [Bool.not_eq_true] at hm
    simp [hm, flag_argument.offered]

theorem sweep_flags (tokens : List String) (i : Nat) (mem : memory) (tok : String)
    (h0 : tokens[i]? = some tok) : ∀ flags : List flag_argument,
    sweep tokens tokens.length (flags.map argument.flag) i mem =
      (.normal, (flags.map (fun F => F.offered [tok])).map argument.flag, i, mem) := by
  intro flags
  induction flags with
  | nil => simp [sweep]
  | cons F rest ih =>
    simp only [List.map_cons, sweep, argument.parse, flag_parse_at F tokens i mem.bools tok h0]
    rw [ih]

theorem parse_loop_flags (tokens : List String) (mem : memory) :
    ∀ (n i fuel : Nat) (flags : List flag_argument), i + n = tokens.length → n ≤ fuel →
      parse_loop tokens tokens.length fuel (flags.map argument.flag) i mem =
        (.normal, (flags.map (fun F => F.offered (tokens.drop i))).map argument.flag, mem) := by
  intro n
  induction n with
  | zero =>
    intro i fuel flags hi _
    have : i = tokens.length := by omega
    subst this
    rw [parse_loop_end]
    simp [flag_offered_nil]
  | succ n ih =>
    intro i fuel flags hi hf
    obtain ⟨f, rfl⟩ : ∃ f, fuel = f + 1 := ⟨fuel - 1, by omega⟩
    have hlt : i < tokens.length := by omega
    have hget : tokens[i]? = some tokens[i] := List.getElem?_eq_getElem hlt
    rw [parse_loop_step tokens tokens.length f _ i mem (by omega),
      sweep_flags tokens i mem tokens[i] hget flags]
    simp only
    rw [ih (i + 1) f _ (by omega) (by omega)]
    have hdrop : tokens.drop i = tokens[i] :: tokens.drop (i + 1) := by
      simp
    simp only [List.map_map, hdrop]
    congr 2
    apply List.map_congr_left
    intro F _
    simp only [Function.comp, flag_offered_cons]

/-- C5: in a context whose descriptors are all flags, none of them set yet,
`command_line::parse` ends normally and leaves every flag with value true exactly when
some token equals its short tag or its long tag. -/
theorem flag_true_iff_tag_present (cl : command_line) (flags : List flag_argument)
    (T : List String) (mem : memory)
    (hcl : cl.arguments = flags.map argument.flag) (hfresh : ∀ F ∈ flags, F.value = false) :
    (cl.parse T mem).1 = .normal ∧
    (cl.parse T mem).2.1.arguments =
      flags.map (fun F => argument.flag
        { F with value := decide (∃ t ∈ T, t = F.get_tag ∨ t = F.get_long_tag) }) ∧
    (∀ F ∈ flags,
      (flag_argument.get_value
          { F with value := decide (∃ t ∈ T, t = F.get_tag ∨ t = F.get_long_tag) } = true ↔
        ∃ t ∈ T, t = F.get_tag ∨ t = F.get_long_tag)) := by
  have hl := parse_loop_flags T mem T.length 0 T.length flags (by omega) (le_refl _)
  refine ⟨?_, ?_, ?_⟩
  · simp only [command_line.parse, hcl, hl]
  · simp only [command_line.parse, hcl, hl, List.map_map, List.drop_zero]
    apply List.map_congr_left
    intro F hF
    simp only [Function.comp, flag_argument.offered, hfresh F hF, Bool.false_or]
    congr 2
    rw [Bool.eq_iff_iff]
    simp [List.any_eq_true]
  · intro F _
    simp [flag_argument.get_value]

/-- The scenario of C5: the flag with tag `"--verbose"` is true after
`["prog", "--verbose"]` and false after `["prog"]`. -/
theorem flag_true_iff_tag_present_witness :
    (verbose_command_line.parse ["prog", "--verbose"] zero_memory).2.1.arguments =
      [.flag { verbose_flag with value := true }] ∧
    (verbose_command_line.parse ["prog"] zero_memory).2.1.arguments =
      [.flag { verbose_flag with value := false }] :=
  ⟨(flag_true_iff_tag_present verbose_command_line [verbose_flag] ["prog", "--verbose"]
      zero_memory rfl (by decide)).2.1,
   (flag_true_iff_tag_present verbose_command_line [verbose_flag] ["prog"]
      zero_memory rfl (by decide)).2.1⟩

/-! ## Bound storage -/

/-- A `parse` call either leaves the descriptor and the store alone, or resolves a value
and writes it through the binding. -/
theorem value_parse_cases {T : Type} [token_value T] (b : value_argument T) (m : Nat → T)
    (tokens : List String) (i e : Nat) :
    ((b.parse tokens i e m).2.1 = b ∧ (b.parse tokens i e m).2.2.2 = m) ∨
    (∃ v : T, (b.parse tokens i e m).2.1 = { b with value := some v } ∧
      (b.parse tokens i e m).2.2.2 =
        (match b.bound_variable with
         | some p => Function.update m p v
         | none => m)) := by
  unfold value_argument.parse
  by_cases hd : (e : Int) - (i : Int) > 1
  · cases h0 : tokens[i]? with
    | none => left; simp [hd]
    | some tok =>
      by_cases hm : (tok == b.get_tag || tok == b.get_long_tag) = true
      · cases h1 : tokens[i + 1]? with
        | none => left; simp [hd, hm, h1]
        | some raw =>
          cases hc : (token_value.convert raw : Option T) with
          | none => left; simp [hd, hm, h1, hc]
          | some v =>
            right
            refine ⟨v, ?_⟩
            simp only [hd, if_true, hm, h1, hc]
            cases b.bound_variable <;> simp
      · left; simp [hd, hm]
  · left; simp [hd]

/-- C7 fails on the code: `flag_argument::parse` never writes to the store of `bool`
variables, whatever the flag is bound to; with the flag `"--verbose"` bound to the
variable at address 0 (false), parsing `["prog", "--verbose"]` sets the flag to true and
leaves the variable false. -/
theorem flag_binding_not_written :
    (∀ (a : flag_argument) (tokens : List String) (i e : Nat) (mem : Nat → Bool),
      (a.parse tokens i e mem).2.2.2 = mem) ∧
    ((bound_verbose_command_line.parse ["prog", "--verbose"] zero_memory).1 = .normal ∧
      (bound_verbose_command_line.parse ["prog", "--verbose"] zero_memory).2.1.arguments =
        [.flag { verbose_flag.bind 0 with value := true }] ∧
      flag_argument.get_value { verbose_flag.bind 0 with value := true } = true ∧
      (bound_verbose_command_line.parse ["prog", "--verbose"] zero_memory).2.2.bools 0 =
        false) := by
  refine ⟨?_, ?_, ?_, ?_, ?_⟩
  · intro a tokens i e mem
    unfold flag_argument.parse
    split
    · split
      · rfl
      · split <;> rfl
    · rfl
  · decide
  · rfl
  · rfl
  · rfl

/-- C8: `set_required(true)` on a descriptor with a default, and `set_default(d)` on a
descriptor whose required flag is true, throw `std::logic_error` and leave the
descriptor and the bound storage exactly as they were. -/
theorem configuration_conflict_atomic {T : Type} (a b : value_argument T) (d : T)
    (mem : Nat → T) (ha : a.default_value.isSome = true) (hb : b.required = true) :
    a.set_required true =
      (.thrown (.logic_error "setting required on argument with default does not make sense"),
        a) ∧
    b.set_default d mem =
      (.thrown (.logic_error "setting default on required argument does not make sense"),
        b, mem) := by
  constructor
  · simp [value_argument.set_required, ha]
  · simp [value_argument.set_default, value_argument.is_required, hb]

/-- Scenario for C8: `count_argument` has the default 0, `positive_count_argument` is
required. -/
theorem configuration_conflict_atomic_witness :
    count_argument.set_required true =
      (.thrown (.logic_error "setting required on argument with default does not make sense"),
        count_argument) ∧
    positive_count_argument.set_default 5 zero_memory.ints =
      (.thrown (.logic_error "setting default on required argument does not make sense"),
        positive_count_argument, zero_memory.ints) :=
  configuration_conflict_atomic count_argument positive_count_argument 5 zero_memory.ints
    rfl rfl

theorem call_run_keeps_exclusion {T : Type} [token_value T] (c : value_argument.call T)
    (s : value_argument T × (Nat → T))
    (h : ¬ (s.1.required = true ∧ s.1.default_value.isSome = true)) :
    ¬ ((c.run s).1.required = true ∧ (c.run s).1.default_value.isSome = true) := by
  cases c with
  | set_name n => exact h
  | set_tag t => exact h
  | set_long_tag t => exact h
  | set_description d => exact h
  | set_validator f => exact h
  | set_default d =>
    simp only [value_argument.call.run, value_argument.set_default, value_argument.is_required]
    by_cases hr : s.1.required = true
    · simpa [hr] using h
    · cases hbv : s.1.bound_variable <;> simp [hr, hbv]
  | set_required b =>
    simp only [value_argument.call.run, value_argument.set_required]
    by_cases hd : s.1.default_value.isSome = true
    · simpa [hd] using h
    · simp [hd]
  | bind t =>
    simp only [value_argument.call.run, value_argument.bind]
    cases hdv : s.1.default_value with
    | none => simp
    | some d => simpa [hdv] using h
  | parse tokens i e =>
    simp only [value_argument.call.run]
    rcases value_parse_cases s.1 s.2 tokens i e with ⟨h1, _⟩ | ⟨v, h1, _⟩
    · rw [h1]; exact h
    · rw [h1]; exact h

/-- C9: starting from a freshly constructed value descriptor, after any sequence of
`set_default`, `set_required`, `bind`, `set_validator`, `parse` and tag/name setter calls,
throwing ones included, it is never the case that `required` is true and a default value
is present. -/
theorem required_default_exclusive {T : Type} [token_value T]
    (calls : List (value_argument.call T)) (n : String) (mem : Nat → T) :
    ¬ ((calls.foldl (fun s c => c.run s) (value_argument.construct n, mem)).1.required = true ∧
      (calls.foldl (fun s c => c.run s)
        (value_argument.construct n, mem)).1.default_value.isSome = true) := by
  have key : ∀ (cs : List (value_argument.call T)) (s : value_argument T × (Nat → T)),
      ¬ (s.1.required = true ∧ s.1.default_value.isSome = true) →
      ¬ ((cs.foldl (fun s c => c.run s) s).1.required = true ∧
        (cs.foldl (fun s c => c.run s) s).1.default_value.isSome = true) := by
    intro cs
    induction cs with
    | nil => intro s h; exact h
    | cons c rest ih =>
      intro s h
      exact ih (c.run s) (call_run_keeps_exclusion c s h)
  exact key calls _ (by simp [value_argument.construct])

/-- C10 fails on the code: with the text descriptor `"-a"` registered before the flag
`"-v"`, parsing `["-a", "-v"]` resolves the descriptor to `"-v"` and also sets the flag,
whose only tag occurrence is that value token; with the flag registered first the same
tokens leave the flag false. -/
theorem value_token_offered_to_later_descriptor :
    ((value_then_flag_command_line.parse ["-a", "-v"] zero_memory).1 = .normal ∧
      (value_then_flag_command_line.parse ["-a", "-v"] zero_memory).2.1.arguments =
        [.string_value { a_argument with value := some "-v" },
         .flag { v_flag with value := true }]) ∧
    ((flag_then_value_command_line.parse ["-a", "-v"] zero_memory).1 = .normal ∧
      (flag_then_value_command_line.parse ["-a", "-v"] zero_memory).2.1.arguments =
        [.flag { v_flag with value := false },
         .string_value { a_argument with value := some "-v" }]) := by
  refine ⟨⟨?_, ?_⟩, ⟨?_, ?_⟩⟩
  · decide
  · rfl
  · decide
  · rfl

/-! ## Cursor bounds and termination -/

/-- With `end` at the end of the tokens, a flag's `parse` call always returns normally and
leaves cursor and store alone. -/
theorem flag_parse_total (a : flag_argument) (tokens : List String) (i : Nat)
    (mem : Nat → Bool) :
    ∃ a1 : flag_argument, a.parse tokens i tokens.length mem = (.normal, a1, i, mem) := by
  by_cases hi : i < tokens.length
  · exact ⟨_, flag_parse_at a tokens i mem tokens[i] (List.getElem?_eq_getElem hi)⟩
  · refine ⟨a, ?_⟩
    have hd : ¬ (((tokens.length : Nat) : Int) - (i : Int) ≥ 1) := by omega
    unfold flag_argument.parse
    simp [hd]

/-- A value descriptor's `parse` call at a cursor before the end returns normally or
throws the conversion error, and leaves the cursor where it was or one further, still
before the end. -/
theorem value_parse_inbounds {T : Type} [token_value T] (a : value_argument T)
    (tokens : List String) (i : Nat) (mem : Nat → T) (hi : i < tokens.length) :
    ((a.parse tokens i tokens.length mem).1 = .normal ∨
      ∃ raw, (a.parse tokens i tokens.length mem).1 =
        .thrown (.runtime_error ("could not parse from '" ++ raw ++ "'"))) ∧
    i ≤ (a.parse tokens i tokens.length mem).2.2.1 ∧
    (a.parse tokens i tokens.length mem).2.2.1 < tokens.length := by
  by_cases hm : tokens.length ≤ i + 1 ∨
      ∀ tok, tokens[i]? = some tok → tok ≠ a.tag ∧ tok ≠ a.long_tag
  · rw [value_parse_miss a tokens i mem hm]
    exact ⟨Or.inl rfl, le_refl _, hi⟩
  · have h1 : i + 1 < tokens.length := by
      by_contra hc; exact hm (Or.inl (by omega))
    have h2 : tokens[i] = a.tag ∨ tokens[i] = a.long_tag := by
      by_contra hc
      apply hm
      right
      intro tok htok
      rw [List.getElem?_eq_getElem hi] at htok
      cases htok
      exact ⟨fun h => hc (Or.inl h), fun h => hc (Or.inr h)⟩
    have g0 : tokens[i]? = some tokens[i] := List.getElem?_eq_getElem hi
    have g1 : tokens[i + 1]? = some tokens[i + 1] := List.getElem?_eq_getElem h1
    cases hc : (token_value.convert tokens[i + 1] : Option T) with
    | none =>
      rw [value_parse_throw a tokens i mem _ _ g0 g1 h2 hc]
      exact ⟨Or.inr ⟨_, rfl⟩, by simp, h1⟩
    | some v =>
      rw [value_parse_hit a tokens i mem _ _ v g0 g1 h2 hc]
      exact ⟨Or.inl rfl, by simp, h1⟩

theorem argument_parse_inbounds (x : argument) (tokens : List String) (i : Nat)
    (mem : memory) (hi : i < tokens.length) :
    ((x.parse tokens i tokens.length mem).1 = .normal ∨
      ∃ raw, (x.parse tokens i tokens.length mem).1 =
        .thrown (.runtime_error ("could not parse from '" ++ raw ++ "'"))) ∧
    i ≤ (x.parse tokens i tokens.length mem).2.2.1 ∧
    (x.parse tokens i tokens.length mem).2.2.1 < tokens.length := by
  cases x with
  | flag a =>
    obtain ⟨a1, h⟩ := flag_parse_total a tokens i mem.bools
    simp [argument.parse, h, hi]
  | int_value a => exact value_parse_inbounds a tokens i mem.ints hi
  | string_value a => exact value_parse_inbounds a tokens i mem.strings hi
  | multi_int a => exact ⟨Or.inl rfl, le_refl _, hi⟩
  | multi_string a => exact ⟨Or.inl rfl, le_refl _, hi⟩

theorem sweep_inbounds (tokens : List String) :
    ∀ (args : List argument) (i : Nat) (mem : memory), i < tokens.length →
      ((sweep tokens tokens.length args i mem).1 = .normal ∨
        ∃ raw, (sweep tokens tokens.length args i mem).1 =
          .thrown (.runtime_error ("could not parse from '" ++ raw ++ "'"))) ∧
      i ≤ (sweep tokens tokens.length args i mem).2.2.1 ∧
      (sweep tokens tokens.length args i mem).2.2.1 < tokens.length ∧
      (∀ q ∈ sweep_cursors tokens tokens.length args i mem, i ≤ q ∧ q < tokens.length) := by
  intro args
  induction args with
  | nil => intro i mem hi; simp [sweep, sweep_cursors, hi]
  | cons x rest ih =>
    intro i mem hi
    obtain ⟨hc, hlo, hhi⟩ := argument_parse_inbounds x tokens i mem hi
    unfold sweep sweep_cursors
    rcases hp : x.parse tokens i tokens.length mem with ⟨c, x1, i1, mem1⟩
    rw [hp] at hc hlo hhi
    simp only at hc hlo hhi
    cases c with
    | normal =>
      obtain ⟨k1, k2, k3, k4⟩ := ih i1 mem1 hhi
      simp only
      refine ⟨k1, by omega, k3, ?_⟩
      intro q hq
      rcases List.mem_cons.mp hq with hq | hq
      · omega
      · have := k4 q hq; omega
    | thrown ex =>
      simp only
      refine ⟨hc, hlo, hhi, ?_⟩
      intro q hq
      simp only [List.mem_singleton] at hq
      omega
    | invalid_read =>
      rcases hc with hc | ⟨raw, hc⟩ <;> cases hc
    | unfinished =>
      rcases hc with hc | ⟨raw, hc⟩ <;> cases hc

theorem parse_loop_total (tokens : List String) :
    ∀ (fuel : Nat) (args : List argument) (i : Nat) (mem : memory),
      i ≤ tokens.length → tokens.length - i ≤ fuel →
      ((parse_loop tokens tokens.length fuel args i mem).1 = .normal ∨
        ∃ raw, (parse_loop tokens tokens.length fuel args i mem).1 =
          .thrown (.runtime_error ("could not parse from '" ++ raw ++ "'"))) := by
  intro fuel
  induction fuel with
  | zero =>
    intro args i mem hi hf
    have : i = tokens.length := by omega
    subst this
    rw [parse_loop_end]; exact Or.inl rfl
  | succ fuel ih =>
    intro args i mem hi hf
    by_cases he : i = tokens.length
    · subst he; rw [parse_loop_end]; exact Or.inl rfl
    · rw [parse_loop_step tokens tokens.length fuel args i mem he]
      obtain ⟨hc, hlo, hhi, _⟩ := sweep_inbounds tokens args i mem (by omega)
      rcases hp : sweep tokens tokens.length args i mem with ⟨c, args1, i1, mem1⟩
      rw [hp] at hc hlo hhi
      simp only at hc hlo hhi
      cases c with
      | normal => exact ih args1 (i1 + 1) mem1 (by omega) (by omega)
      | thrown ex => exact hc
      | invalid_read => rcases hc with hc | ⟨raw, hc⟩ <;> cases hc
      | unfinished => rcases hc with hc | ⟨raw, hc⟩ <;> cases hc

/-- Any iteration budget that covers the remaining tokens gives the same result. -/
theorem parse_loop_budget (tokens : List String) :
    ∀ (f1 f2 : Nat) (args : List argument) (i : Nat) (mem : memory),
      i ≤ tokens.length → tokens.length - i ≤ f1 → tokens.length - i ≤ f2 →
      parse_loop tokens tokens.length f1 args i mem =
        parse_loop tokens tokens.length f2 args i mem := by
  intro f1
  induction f1 with
  | zero =>
    intro f2 args i mem hi h1 _
    have : i = tokens.length := by omega
    subst this
    rw [parse_loop_end, parse_loop_end]
  | succ f1 ih =>
    intro f2 args i mem hi h1 h2
    by_cases he : i = tokens.length
    · subst he; rw [parse_loop_end, parse_loop_end]
    · obtain ⟨g2, rfl⟩ : ∃ g, f2 = g + 1 := ⟨f2 - 1, by omega⟩
      rw [parse_loop_step tokens tokens.length f1 args i mem he,
        parse_loop_step tokens tokens.length g2 args i mem he]
      obtain ⟨hc, hlo, hhi, _⟩ := sweep_inbounds tokens args i mem (by omega)
      rcases hp : sweep tokens tokens.length args i mem with ⟨c, args1, i1, mem1⟩
      rw [hp] at hc hlo hhi
      simp only at hc hlo hhi
      cases c with
      | normal => exact ih g2 args1 (i1 + 1) mem1 (by omega) (by omega) (by omega)
      | thrown ex => rfl
      | invalid_read => rfl
      | unfinished => rfl

/-- A flag at the head of a sweep: the remaining descriptors are swept from the same
cursor and stores. -/
theorem sweep_flag_cons (tokens : List String) (F : flag_argument) (rest : List argument)
    (p : Nat) (mem : memory) :
    ∃ F1 : flag_argument,
      (argument.flag F).parse tokens p tokens.length mem = (.normal, .flag F1, p, mem) ∧
      sweep tokens tokens.length (.flag F :: rest) p mem =
        ((sweep tokens tokens.length rest p mem).1,
          .flag F1 :: (sweep tokens tokens.length rest p mem).2.1,
          (sweep tokens tokens.length rest p mem).2.2.1,
          (sweep tokens tokens.length rest p mem).2.2.2) ∧
      sweep_cursors tokens tokens.length (.flag F :: rest) p mem =
        p :: sweep_cursors tokens tokens.length rest p mem := by
  obtain ⟨F1, h⟩ := flag_parse_total F tokens p mem.bools
  have hp : (argument.flag F).parse tokens p tokens.length mem = (.normal, .flag F1, p, mem) := by
    simp [argument.parse, h]
  refine ⟨F1, hp, ?_, ?_⟩
  · rw [sweep, hp]
  · rw [sweep_cursors, hp]

/-- After a value descriptor matched at `p`, the remaining descriptors of the sweep are
called at cursors beyond `p`. -/
theorem sweep_cursors_after_match (tokens : List String) (x : argument) (rest : List argument)
    (p : Nat) (mem : memory) (hp1 : p + 1 < tokens.length)
    (hx : (x.parse tokens p tokens.length mem).2.2.1 = p + 1) :
    ∀ q ∈ (sweep_cursors tokens tokens.length (x :: rest) p mem).tail, p < q := by
  intro q hq
  unfold sweep_cursors at hq
  rcases hp : x.parse tokens p tokens.length mem with ⟨c, x1, i1, mem1⟩
  rw [hp] at hq hx
  simp only at hx
  subst hx
  cases c with
  | normal =>
    simp only [List.tail_cons] at hq
    have := (sweep_inbounds tokens rest (p + 1) mem1 hp1).2.2.2 q hq
    omega
  | thrown ex => simp at hq
  | invalid_read => simp at hq
  | unfinished => simp at hq

/-- C11 fails on the code: one occurrence of `"-v"` sets both flags that carry this tag,
and with a flag registered before an integer descriptor of the same tag the tokens
`["-v", "5"]` set the flag and resolve the integer descriptor as well. -/
theorem shared_tag_matches_both :
    ((two_v_flags_command_line.parse ["-v"] zero_memory).1 = .normal ∧
      (two_v_flags_command_line.parse ["-v"] zero_memory).2.1.arguments =
        [.flag { v_flag with value := true }, .flag { other_v_flag with value := true }]) ∧
    ((flag_then_same_tag_command_line.parse ["-v", "5"] zero_memory).1 = .normal ∧
      (flag_then_same_tag_command_line.parse ["-v", "5"] zero_memory).2.1.arguments =
        [.flag { v_flag with value := true },
         .int_value { v_int_argument with value := some 5 }]) := by
  refine ⟨⟨?_, ?_⟩, ⟨?_, ?_⟩⟩
  · decide
  · rfl
  · decide
  · rfl

/-- C11 as amended: within a sweep, a flag never takes the position away, at any cursor
holding a token (the last one included) and whether it matches or not: the descriptors
registered after it are called at the same cursor with the same stores. Only a value
descriptor whose tag matches at `p` with a token following takes position `p`: every
descriptor registered after it is called at a cursor beyond `p`. -/
theorem only_value_match_takes_position (tokens : List String) (p : Nat) (mem : memory)
    (rest : List argument) (F : flag_argument) (a : value_argument Int)
    (b : value_argument String) (tok : String)
    (h0 : tokens[p]? = some tok) :
    (sweep tokens tokens.length (.flag F :: rest) p mem =
        ((sweep tokens tokens.length rest p mem).1,
          .flag (F.offered [tok]) :: (sweep tokens tokens.length rest p mem).2.1,
          (sweep tokens tokens.length rest p mem).2.2.1,
          (sweep tokens tokens.length rest p mem).2.2.2) ∧
      sweep_cursors tokens tokens.length (.flag F :: rest) p mem =
        p :: sweep_cursors tokens tokens.length rest p mem) ∧
    (∀ raw : String, tokens[p + 1]? = some raw → (tok = a.get_tag ∨ tok = a.get_long_tag) →
      ∀ q ∈ (sweep_cursors tokens tokens.length (.int_value a :: rest) p mem).tail, p < q) ∧
    (∀ raw : String, tokens[p + 1]? = some raw → (tok = b.get_tag ∨ tok = b.get_long_tag) →
      ∀ q ∈ (sweep_cursors tokens tokens.length (.string_value b :: rest) p mem).tail,
        p < q) := by
  have hlen : ∀ raw : String, tokens[p + 1]? = some raw → p + 1 < tokens.length := by
    intro raw h1
    by_contra hc
    rw [List.getElem?_eq_none (by omega)] at h1
    exact absurd h1 (by simp)
  refine ⟨?_, ?_, ?_⟩
  · obtain ⟨F1, hF, hs, hc⟩ := sweep_flag_cons tokens F rest p mem
    have hF1 : F1 = F.offered [tok] := by
      have h2 : (argument.flag F).parse tokens p tokens.length mem =
          (.normal, .flag (F.offered [tok]), p, mem) := by
        simp [argument.parse, flag_parse_at F tokens p mem.bools tok h0]
      rw [h2] at hF
      simp only [Prod.mk.injEq, argument.flag.injEq, true_and, and_true] at hF
      exact hF.symm
    subst hF1
    exact ⟨hs, hc⟩
  · intro raw h1 ha
    apply sweep_cursors_after_match tokens _ rest p mem (hlen raw h1)
    simp only [argument.parse]
    cases hc : (token_value.convert raw : Option Int) with
    | none => rw [value_parse_throw a tokens p mem.ints tok raw h0 h1 ha hc]
    | some v => rw [value_parse_hit a tokens p mem.ints tok raw v h0 h1 ha hc]
  · intro raw h1 hb
    apply sweep_cursors_after_match tokens _ rest p mem (hlen raw h1)
    simp only [argument.parse]
    cases hc : (token_value.convert raw : Option String) with
    | none => rw [value_parse_throw b tokens p mem.strings tok raw h0 h1 hb hc]
    | some v => rw [value_parse_hit b tokens p mem.strings tok raw v h0 h1 hb hc]

/-- Scenario for C11: on `["-v"]`, at the last position, the flag `"-v"` is set and the
second flag of the same tag is called at the same cursor 0; on `["-v", "5"]` the text
descriptor with tag `"-v"` moves the cursor of the flag registered after it beyond
position 0. -/
theorem only_value_match_takes_position_witness :
    (sweep ["-v"] 1 [.flag v_flag, .flag other_v_flag] 0 zero_memory =
        ((sweep ["-v"] 1 [.flag other_v_flag] 0 zero_memory).1,
          .flag (v_flag.offered ["-v"]) :: (sweep ["-v"] 1 [.flag other_v_flag] 0 zero_memory).2.1,
          (sweep ["-v"] 1 [.flag other_v_flag] 0 zero_memory).2.2.1,
          (sweep ["-v"] 1 [.flag other_v_flag] 0 zero_memory).2.2.2) ∧
      sweep_cursors ["-v"] 1 [.flag v_flag, .flag other_v_flag] 0 zero_memory =
        0 :: sweep_cursors ["-v"] 1 [.flag other_v_flag] 0 zero_memory) ∧
    (∀ q ∈ (sweep_cursors ["-v", "5"] 2
        [.string_value { a_argument with tag := "-v" }, .flag v_flag] 0 zero_memory).tail,
      0 < q) :=
  have h := only_value_match_takes_position ["-v"] 0 zero_memory
    [.flag other_v_flag] v_flag v_int_argument { a_argument with tag := "-v" } "-v" rfl
  have h2 := only_value_match_takes_position ["-v", "5"] 0 zero_memory
    [.flag v_flag] v_flag v_int_argument { a_argument with tag := "-v" } "-v" rfl
  ⟨h.1, h2.2.2 "5" rfl (Or.inl rfl)⟩

/-- C13: `command_line::parse` ends on every token sequence and every list of descriptors,
returning normally or throwing the conversion error: it never exhausts its iteration
budget (a larger budget gives the same result) and never reads outside the tokens. In every
sweep started before the end, each descriptor is called at a cursor before the end and the
cursor is still before the end when the sweep is over. -/
theorem parse_terminates (cl : command_line) (tokens : List String) (mem : memory) :
    ((cl.parse tokens mem).1 = .normal ∨
      ∃ raw, (cl.parse tokens mem).1 =
        .thrown (.runtime_error ("could not parse from '" ++ raw ++ "'"))) ∧
    (∀ fuel, tokens.length ≤ fuel →
      parse_loop tokens tokens.length fuel cl.arguments 0 mem =
        parse_loop tokens tokens.length tokens.length cl.arguments 0 mem) ∧
    (∀ (args : List argument) (i : Nat) (m : memory), i < tokens.length →
      ((sweep tokens tokens.length args i m).1 = .normal ∨
        ∃ raw, (sweep tokens tokens.length args i m).1 =
          .thrown (.runtime_error ("could not parse from '" ++ raw ++ "'"))) ∧
      (sweep tokens tokens.length args i m).2.2.1 < tokens.length ∧
      (∀ q ∈ sweep_cursors tokens tokens.length args i m, q < tokens.length)) := by
  refine ⟨?_, ?_, ?_⟩
  · exact parse_loop_total tokens tokens.length cl.arguments 0 mem (Nat.zero_le _) (by omega)
  · intro fuel hf
    exact parse_loop_budget tokens fuel tokens.length cl.arguments 0 mem (Nat.zero_le _)
      (by omega) (by omega)
  · intro args i m hi
    obtain ⟨h1, _, h3, h4⟩ := sweep_inbounds tokens args i m hi
    exact ⟨h1, h3, fun q hq => (h4 q hq).2⟩

/-- Scenario for C13: the sweep at position 1 of `["prog", "-c", "42"]`, where the
descriptor `"-c"` matches, ends with the cursor at 2, before the end. -/
theorem parse_terminates_witness :
    (sweep ["prog", "-c", "42"] 3 count_command_line.arguments 1 zero_memory).2.2.1 < 3 :=
  ((parse_terminates count_command_line ["prog", "-c", "42"] zero_memory).2.2
    count_command_line.arguments 1 zero_memory (by decide)).2.1

/-! ## Descriptors that never consume -/

theorem never_consumes_parse (tokens : List String) (x : argument) (i : Nat) (mem : memory)
    (h : x.never_consumes tokens = true) :
    ∃ x1 : argument, x.parse tokens i tokens.length mem = (.normal, x1, i, mem) ∧
      x1.never_consumes tokens = true := by
  cases x with
  | flag a =>
    obtain ⟨a1, h1⟩ := flag_parse_total a tokens i mem.bools
    exact ⟨.flag a1, by simp [argument.parse, h1], rfl⟩
  | multi_int a => exact ⟨.multi_int a, rfl, rfl⟩
  | multi_string a => exact ⟨.multi_string a, rfl, rfl⟩
  | int_value a =>
    refine ⟨.int_value a, ?_, h⟩
    simp only [argument.never_consumes, List.all_eq_true] at h
    have hm : tokens.length ≤ i + 1 ∨
        ∀ tok, tokens[i]? = some tok → tok ≠ a.tag ∧ tok ≠ a.long_tag := by
      right
      intro tok htok
      have := h tok (List.getElem?_mem htok)
      simpa [value_argument.get_tag, value_argument.get_long_tag] using this
    simp only [argument.parse, value_parse_miss a tokens i mem.ints hm]
  | string_value a =>
    refine ⟨.string_value a, ?_, h⟩
    simp only [argument.never_consumes, List.all_eq_true] at h
    have hm : tokens.length ≤ i + 1 ∨
        ∀ tok, tokens[i]? = some tok → tok ≠ a.tag ∧ tok ≠ a.long_tag := by
      right
      intro tok htok
      have := h tok (List.getElem?_mem htok)
      simpa [value_argument.get_tag, value_argument.get_long_tag] using this
    simp only [argument.parse, value_parse_miss a tokens i mem.strings hm]

theorem never_consumes_sweep (tokens : List String) :
    ∀ (xs : List argument) (i : Nat) (mem : memory),
      (∀ x ∈ xs, x.never_consumes tokens = true) →
      ∃ xs1 : List argument, sweep tokens tokens.length xs i mem = (.normal, xs1, i, mem) ∧
        xs1.length = xs.length ∧ (∀ x ∈ xs1, x.never_consumes tokens = true) := by
  intro xs
  induction xs with
  | nil => intro i mem _; exact ⟨[], rfl, rfl, by simp⟩
  | cons x rest ih =>
    intro i mem h
    obtain ⟨x1, hx, hx1⟩ := never_consumes_parse tokens x i mem (h x (by simp))
    obtain ⟨r1, hr, hlen, hr1⟩ := ih i mem (fun y hy => h y (by simp [hy]))
    refine ⟨x1 :: r1, ?_, by simp [hlen], ?_⟩
    · rw [sweep, hx]; simp only [hr]
    · intro y hy
      rcases List.mem_cons.mp hy with hy | hy
      · rw [hy]; exact hx1
      · exact hr1 y hy

/-- A sweep over a context in which every descriptor but `X` never consumes does to `X`,
to the cursor and to the stores what the sweep over `X` alone does. -/
theorem sweep_among_never_consuming (tokens : List String) (X : argument)
    (before after : List argument) (i : Nat) (mem : memory)
    (hb : ∀ y ∈ before, y.never_consumes tokens = true)
    (ha : ∀ y ∈ after, y.never_consumes tokens = true) :
    ∃ (before1 after1 : List argument),
      sweep tokens tokens.length (before ++ X :: after) i mem =
        ((X.parse tokens i tokens.length mem).1,
          before1 ++ (X.parse tokens i tokens.length mem).2.1 :: after1,
          (X.parse tokens i tokens.length mem).2.2.1,
          (X.parse tokens i tokens.length mem).2.2.2) ∧
      before1.length = before.length ∧
      (∀ y ∈ before1, y.never_consumes tokens = true) ∧
      (∀ y ∈ after1, y.never_consumes tokens = true) := by
  induction before with
  | nil =>
    rcases hp : X.parse tokens i tokens.length mem with ⟨c, X1, i1, mem1⟩
    obtain ⟨a1, hs, _, ha1⟩ := never_consumes_sweep tokens after i1 mem1 ha
    cases c with
    | normal =>
      refine ⟨[], a1, ?_, rfl, by simp, ha1⟩
      simp only [List.nil_append]
      rw [sweep, hp]; simp only [hs]
    | thrown ex =>
      refine ⟨[], after, ?_, rfl, by simp, ha⟩
      simp only [List.nil_append]
      rw [sweep, hp]
    | invalid_read =>
      refine ⟨[], after, ?_, rfl, by simp, ha⟩
      simp only [List.nil_append]
      rw [sweep, hp]
    | unfinished =>
      refine ⟨[], after, ?_, rfl, by simp, ha⟩
      simp only [List.nil_append]
      rw [sweep, hp]
  | cons y rest ih =>
    obtain ⟨y1, hy, hy1⟩ := never_consumes_parse tokens y i mem (hb y (by simp))
    obtain ⟨b1, a1, hs, hlen, hb1, ha1⟩ := ih (fun z hz => hb z (by simp [hz]))
    refine ⟨y1 :: b1, a1, ?_, by simp [hlen], ?_, ha1⟩
    · simp only [List.cons_append]
      rw [sweep, hy]; simp only [hs]
    · intro z hz
      rcases List.mem_cons.mp hz with hz | hz
      · rw [hz]; exact hy1
      · exact hb1 z hz

theorem parse_loop_among_never_consuming (tokens : List String) :
    ∀ (fuel : Nat) (X : argument) (before after : List argument) (i : Nat) (mem : memory),
      (∀ y ∈ before, y.never_consumes tokens = true) →
      (∀ y ∈ after, y.never_consumes tokens = true) →
      ∃ (X1 : argument) (before1 after1 : List argument),
        parse_loop tokens tokens.length fuel [X] i mem =
          ((parse_loop tokens tokens.length fuel [X] i mem).1, [X1],
            (parse_loop tokens tokens.length fuel [X] i mem).2.2) ∧
        parse_loop tokens tokens.length fuel (before ++ X :: after) i mem =
          ((parse_loop tokens tokens.length fuel [X] i mem).1, before1 ++ X1 :: after1,
            (parse_loop tokens tokens.length fuel [X] i mem).2.2) ∧
        before1.length = before.length := by
  intro fuel
  induction fuel with
  | zero =>
    intro X before after i mem _ _
    refine ⟨X, before, after, ?_, ?_, rfl⟩
    · unfold parse_loop; by_cases hi : i = tokens.length <;> simp [hi]
    · unfold parse_loop; by_cases hi : i = tokens.length <;> simp [hi]
  | succ fuel ih =>
    intro X before after i mem hb ha
    by_cases hi : i = tokens.length
    · subst hi
      refine ⟨X, before, after, ?_, ?_, rfl⟩
      · rw [parse_loop_end]
      · rw [parse_loop_end, parse_loop_end]
    · obtain ⟨b1, a1, hs, hlen, hb1, ha1⟩ :=
        sweep_among_never_consuming tokens X before after i mem hb ha
      rw [parse_loop_step tokens tokens.length fuel _ i mem hi,
        parse_loop_step tokens tokens.length fuel _ i mem hi, hs, sweep_single]
      rcases hp : X.parse tokens i tokens.length mem with ⟨c, X1, i1, mem1⟩
      cases c with
      | normal =>
        obtain ⟨X2, b2, a2, h1, h2, hlen2⟩ := ih X1 b1 a1 (i1 + 1) mem1 hb1 ha1
        exact ⟨X2, b2, a2, h1, h2, by omega⟩
      | thrown ex => exact ⟨X1, b1, a1, rfl, rfl, hlen⟩
      | invalid_read => exact ⟨X1, b1, a1, rfl, rfl, hlen⟩
      | unfinished => exact ⟨X1, b1, a1, rfl, rfl, hlen⟩

/-- C12 fails on the code: with the flag `"-v"` registered before the text descriptor
`"-a"`, the tokens `["-a", "-v"]` are parsed without a throw and leave the flag false,
while in a context holding only the flag the same tokens set it. -/
theorem other_descriptor_blocks_flag :
    ((flag_then_value_command_line.parse ["-a", "-v"] zero_memory).1 = .normal ∧
      (flag_then_value_command_line.parse ["-a", "-v"] zero_memory).2.1.arguments[0]? =
        some (.flag { v_flag with value := false })) ∧
    ((v_flag_command_line.parse ["-a", "-v"] zero_memory).1 = .normal ∧
      (v_flag_command_line.parse ["-a", "-v"] zero_memory).2.1.arguments[0]? =
        some (.flag { v_flag with value := true })) := by
  refine ⟨⟨?_, ?_⟩, ⟨?_, ?_⟩⟩
  · decide
  · rfl
  · decide
  · rfl

/-- C12 as amended: when every other descriptor of the context is a flag, a multi-value
descriptor, or a value descriptor neither tag of which occurs in `T`, parsing `T` ends the
same way, leaves the stores the same, and leaves `X` in the same state as parsing `T` in a
context where `X` is the only descriptor, wherever the others are registered. -/
theorem never_consuming_others_do_not_block (cl solo : command_line)
    (before after : List argument) (X : argument) (T : List String) (mem : memory)
    (hcl : cl.arguments = before ++ X :: after) (hsolo : solo.arguments = [X])
    (hothers : ∀ y ∈ before ++ after, y.never_consumes T = true) :
    (cl.parse T mem).1 = (solo.parse T mem).1 ∧
    (cl.parse T mem).2.2 = (solo.parse T mem).2.2 ∧
    ∃ X1 : argument, (solo.parse T mem).2.1.arguments = [X1] ∧
      (cl.parse T mem).2.1.arguments[before.length]? = some X1 := by
  obtain ⟨X1, b1, a1, h1, h2, hlen⟩ :=
    parse_loop_among_never_consuming T T.length X before after 0 mem
      (fun y hy => hothers y (by simp [hy])) (fun y hy => hothers y (by simp [hy]))
  simp only [command_line.parse, hcl, hsolo]
  rw [h2]
  refine ⟨rfl, rfl, X1, ?_, ?_⟩
  · rw [h1]
  · simp only
    rw [← hlen, List.getElem?_append_right (le_refl _)]
    simp

/-- Scenario for C12: the text descriptor `"-a"` registered after the flag `"-v"` ends as
it does alone on `["-a", "-v"]`. -/
theorem never_consuming_others_do_not_block_witness :
    ∃ X1 : argument, (a_command_line.parse ["-a", "-v"] zero_memory).2.1.arguments = [X1] ∧
      (flag_then_value_command_line.parse ["-a", "-v"] zero_memory).2.1.arguments[1]? =
        some X1 :=
  (never_consuming_others_do_not_block flag_then_value_command_line a_command_line
    [.flag v_flag] [] (.string_value a_argument) ["-a", "-v"] zero_memory rfl rfl
    (by decide)).2.2

/-! ## Conversion error text, missing value token, flags, multi-value descriptors -/

/-- C14 fails on the code: for the descriptor named `"count"` and the token `"abc"` the
error thrown is the runtime error `"could not parse from 'abc'"`, and the name `"count"`
does not occur in that text. -/
theorem conversion_error_lacks_name :
    count_argument.get_name = "count" ∧
    (count_argument.parse ["-c", "abc"] 0 2 zero_memory.ints).1 =
      .thrown (.runtime_error "could not parse from 'abc'") ∧
    ¬ (count_argument.get_name.data <:+: "could not parse from 'abc'".data) := by
  refine ⟨rfl, ?_, ?_⟩
  · decide
  · decide

/-- C14 as amended: whenever `value_argument::parse` fails on a non-convertible value
token `raw`, it throws the runtime error with the text `"could not parse from '<raw>'"`,
which contains the offending token; the error is the same whatever the descriptor's name
is. -/
theorem conversion_error_carries_token {T : Type} [token_value T] (a : value_argument T)
    (tokens : List String) (i : Nat) (mem : Nat → T) (tok raw : String) (n : String)
    (h0 : tokens[i]? = some tok) (h1 : tokens[i + 1]? = some raw)
    (ht : tok = a.get_tag ∨ tok = a.get_long_tag)
    (hc : (token_value.convert raw : Option T) = none) :
    (a.parse tokens i tokens.length mem).1 =
      .thrown (.runtime_error ("could not parse from '" ++ raw ++ "'")) ∧
    raw.data <:+: ("could not parse from '" ++ raw ++ "'").data ∧
    ((a.set_name n).parse tokens i tokens.length mem).1 =
      (a.parse tokens i tokens.length mem).1 := by
  refine ⟨?_, ?_, ?_⟩
  · rw [value_parse_throw a tokens i mem tok raw h0 h1 ht hc]
  · exact ⟨"could not parse from '".data, "'".data, by simp [String.data_append]⟩
  · rw [value_parse_throw a tokens i mem tok raw h0 h1 ht hc,
      value_parse_throw (a.set_name n) tokens i mem tok raw h0 h1 ht hc]

/-- Scenario for C14: the descriptor `"--count"`/`"-c"` on `["-c", "abc"]`, renamed or
not. -/
theorem conversion_error_carries_token_witness :
    (count_argument.parse ["-c", "abc"] 0 ["-c", "abc"].length zero_memory.ints).1 =
      .thrown (.runtime_error ("could not parse from '" ++ "abc" ++ "'")) ∧
    "abc".data <:+: ("could not parse from '" ++ "abc" ++ "'").data ∧
    ((count_argument.set_name "other").parse ["-c", "abc"] 0 ["-c", "abc"].length
        zero_memory.ints).1 =
      (count_argument.parse ["-c", "abc"] 0 ["-c", "abc"].length zero_memory.ints).1 :=
  conversion_error_carries_token count_argument ["-c", "abc"] 0 zero_memory.ints "-c" "abc"
    "other" rfl rfl (Or.inl rfl) (by decide)

/-! ## A context holding one text descriptor -/

theorem sweep_string_miss (a : value_argument String) (tokens : List String) (j : Nat)
    (mem : memory)
    (h : tokens.length ≤ j + 1 ∨ ∀ tok, tokens[j]? = some tok → tok ≠ a.tag ∧ tok ≠ a.long_tag) :
    sweep tokens tokens.length [.string_value a] j mem = (.normal, [.string_value a], j, mem) := by
  rw [sweep_single]
  simp only [argument.parse, value_parse_miss a tokens j mem.strings h]

theorem sweep_string_hit (a : value_argument String) (tokens : List String) (i : Nat)
    (mem : memory) (tok raw : String) (h0 : tokens[i]? = some tok)
    (h1 : tokens[i + 1]? = some raw) (ht : tok = a.tag ∨ tok = a.long_tag) :
    sweep tokens tokens.length [.string_value a] i mem =
      (.normal, [.string_value { a with value := some raw }], i + 1,
        { mem with strings := match a.bound_variable with
                              | some p => Function.update mem.strings p raw
                              | none => mem.strings }) := by
  rw [sweep_single]
  simp only [argument.parse, value_parse_hit a tokens i mem.strings tok raw raw h0 h1 ht rfl]

theorem parse_loop_string_no_match (a : value_argument String) (tokens : List String)
    (mem : memory) (fuel i : Nat) (hi : i ≤ tokens.length) (hf : tokens.length - i ≤ fuel)
    (h : ∀ j, i ≤ j → j < tokens.length →
      (tokens.length ≤ j + 1 ∨ ∀ tok, tokens[j]? = some tok → tok ≠ a.tag ∧ tok ≠ a.long_tag)) :
    parse_loop tokens tokens.length fuel [.string_value a] i mem =
      (.normal, [.string_value a], mem) := by
  rw [parse_loop_skip tokens tokens.length [.string_value a] mem (tokens.length - i) fuel i
    (by omega) hf (fun j h1 h2 => sweep_string_miss a tokens j mem (h j h1 (by omega)))]
  have : i + (tokens.length - i) = tokens.length := by omega
  rw [this, parse_loop_end]

/-- In `pre ++ [t]` with no tag in `pre`, no position has a tag with a token after it. -/
theorem no_match_before_last (pre : List String) (t s l : String)
    (hpre : ∀ x ∈ pre, x ≠ s ∧ x ≠ l) (j : Nat) (_hj : j < (pre ++ [t]).length) :
    (pre ++ [t]).length ≤ j + 1 ∨
      ∀ tok, (pre ++ [t])[j]? = some tok → tok ≠ s ∧ tok ≠ l := by
  by_cases h : j < pre.length
  · right
    intro tok htok
    exact hpre tok (getElem?_mem_of_lt_pre pre [t] j tok h htok)
  · left
    simp only [List.length_append, List.length_singleton]
    omega

/-- C15: with exactly one token left, a value descriptor's `parse` returns normally and
leaves the descriptor, the cursor and the store as they are, whatever that token is. So
in a context holding one value descriptor (integer or text) without resolved value,
parsing tokens that end in any token `t`, also a tag, after a tag-free front leaves the
context and the stores unchanged: `get_value` gives the default when there is one and
throws the missing-value error otherwise, and a required descriptor (which has no
default) is not valid. -/
theorem value_tag_without_value_token {T : Type} [token_value T] (a : value_argument T)
    (tokens : List String) (i e : Nat) (mem : Nat → T)
    (V : value_argument Int) (W : value_argument String) (cl cl2 : command_line)
    (pre pre2 : List String) (t : String) (M : memory)
    (hone : (e : Int) - (i : Int) = 1)
    (hcl : cl.arguments = [argument.int_value V]) (hV : V.value = none)
    (hpre : ∀ x ∈ pre, x ≠ V.get_tag ∧ x ≠ V.get_long_tag)
    (hcl2 : cl2.arguments = [argument.string_value W]) (hW : W.value = none)
    (hpre2 : ∀ x ∈ pre2, x ≠ W.get_tag ∧ x ≠ W.get_long_tag) :
    a.parse tokens i e mem = (.normal, a, i, mem) ∧
    (cl.parse (pre ++ [t]) M = (.normal, cl, M) ∧
      V.get_value =
        (match V.default_value with
         | some d => Except.ok d
         | none =>
           Except.error (.runtime_error ("argument '" ++ V.name ++ "' does not have a value"))) ∧
      (V.required = true → V.default_value = none → V.is_valid = false)) ∧
    (cl2.parse (pre2 ++ [t]) M = (.normal, cl2, M) ∧
      W.get_value =
        (match W.default_value with
         | some d => Except.ok d
         | none =>
           Except.error (.runtime_error ("argument '" ++ W.name ++ "' does not have a value"))) ∧
      (W.required = true → W.default_value = none → W.is_valid = false)) := by
  refine ⟨?_, ⟨?_, ?_, ?_⟩, ⟨?_, ?_, ?_⟩⟩
  · unfold value_argument.parse
    have hd : ¬ ((e : Int) - (i : Int) > 1) := by omega
    simp [hd]
  · have hl := parse_loop_int_no_match V (pre ++ [t]) M (pre ++ [t]).length 0 (Nat.zero_le _)
      (by omega) (fun j _ hj => no_match_before_last pre t V.tag V.long_tag hpre j hj)
    simp only [command_line.parse, hcl, hl]
    cases cl
    simp only at hcl
    simp [hcl]
  · simp only [value_argument.get_value, value_argument.get_name, hV]
    cases V.default_value <;> rfl
  · intro hr hd
    simp [value_argument.is_valid, hV, hd, hr]
  · have hl := parse_loop_string_no_match W (pre2 ++ [t]) M (pre2 ++ [t]).length 0
      (Nat.zero_le _) (by omega)
      (fun j _ hj => no_match_before_last pre2 t W.tag W.long_tag hpre2 j hj)
    simp only [command_line.parse, hcl2, hl]
    cases cl2
    simp only at hcl2
    simp [hcl2]
  · simp only [value_argument.get_value, value_argument.get_name, hW]
    cases W.default_value <;> rfl
  · intro hr hd
    simp [value_argument.is_valid, hW, hd, hr]

/-- Scenario for C15: the required descriptor `"--count"`/`"-c"` on `["prog", "-c"]`, and
the text descriptor `"-a"` on `["-a"]`. -/
theorem value_tag_without_value_token_witness :
    required_count_argument.parse ["prog", "-c"] 1 2 zero_memory.ints =
      (.normal, required_count_argument, 1, zero_memory.ints) ∧
    required_count_command_line.parse (["prog"] ++ ["-c"]) zero_memory =
      (.normal, required_count_command_line, zero_memory) ∧
    required_count_argument.is_valid = false ∧
    a_command_line.parse ([] ++ ["-c"]) zero_memory = (.normal, a_command_line, zero_memory) :=
  have h := value_tag_without_value_token required_count_argument ["prog", "-c"] 1 2
    zero_memory.ints required_count_argument a_argument required_count_command_line
    a_command_line ["prog"] [] "-c" zero_memory (by decide) rfl rfl (by decide) rfl rfl
    (by simp)
  ⟨h.1, h.2.1.1, h.2.1.2.2 rfl rfl, h.2.2.1⟩

/-! ## Flags are transparent to the other descriptors -/

theorem sweep_flag_transparent (tokens : List String) (F : flag_argument)
    (after : List argument) :
    ∀ (before : List argument) (i : Nat) (mem : memory),
      ∃ (F1 : flag_argument) (before1 after1 : List argument),
        sweep tokens tokens.length (before ++ .flag F :: after) i mem =
          ((sweep tokens tokens.length (before ++ after) i mem).1,
            before1 ++ .flag F1 :: after1,
            (sweep tokens tokens.length (before ++ after) i mem).2.2.1,
            (sweep tokens tokens.length (before ++ after) i mem).2.2.2) ∧
        (sweep tokens tokens.length (before ++ after) i mem).2.1 = before1 ++ after1 ∧
        before1.length = before.length := by
  intro before
  induction before with
  | nil =>
    intro i mem
    obtain ⟨F1, _, hs, _⟩ := sweep_flag_cons tokens F after i mem
    exact ⟨F1, [], (sweep tokens tokens.length after i mem).2.1, by simpa using hs, rfl, rfl⟩
  | cons x rest ih =>
    intro i mem
    simp only [List.cons_append]
    rw [sweep, sweep]
    rcases hp : x.parse tokens i tokens.length mem with ⟨c, x1, i1, mem1⟩
    cases c with
    | normal =>
      obtain ⟨F1, b1, a1, h1, h2, hlen⟩ := ih i1 mem1
      refine ⟨F1, x1 :: b1, a1, ?_, ?_, by simp [hlen]⟩
      · simp only [h1, List.cons_append]
      · simp only [h2, List.cons_append]
    | thrown ex => exact ⟨F, x1 :: rest, after, rfl, rfl, rfl⟩
    | invalid_read => exact ⟨F, x1 :: rest, after, rfl, rfl, rfl⟩
    | unfinished => exact ⟨F, x1 :: rest, after, rfl, rfl, rfl⟩

theorem parse_loop_flag_transparent (tokens : List String) :
    ∀ (fuel : Nat) (F : flag_argument) (before after : List argument) (i : Nat)
      (mem : memory),
      ∃ (F1 : flag_argument) (before1 after1 : List argument),
        parse_loop tokens tokens.length fuel (before ++ .flag F :: after) i mem =
          ((parse_loop tokens tokens.length fuel (before ++ after) i mem).1,
            before1 ++ .flag F1 :: after1,
            (parse_loop tokens tokens.length fuel (before ++ after) i mem).2.2) ∧
        (parse_loop tokens tokens.length fuel (before ++ after) i mem).2.1 =
          before1 ++ after1 ∧
        before1.length = before.length := by
  intro fuel
  induction fuel with
  | zero =>
    intro F before after i mem
    refine ⟨F, before, after, ?_, ?_, rfl⟩
    · unfold parse_loop; by_cases hi : i = tokens.length <;> simp [hi]
    · unfold parse_loop; by_cases hi : i = tokens.length <;> simp [hi]
  | succ fuel ih =>
    intro F before after i mem
    by_cases hi : i = tokens.length
    · subst hi
      exact ⟨F, before, after, by rw [parse_loop_end, parse_loop_end],
        by rw [parse_loop_end], rfl⟩
    · obtain ⟨F1, b1, a1, h1, h2, hlen⟩ := sweep_flag_transparent tokens F after before i mem
      rw [parse_loop_step tokens tokens.length fuel _ i mem hi,
        parse_loop_step tokens tokens.length fuel _ i mem hi, h1]
      rcases hp : sweep tokens tokens.length (before ++ after) i mem with ⟨c, r, i1, mem1⟩
      rw [hp] at h2
      simp only at h2
      subst h2
      cases c with
      | normal =>
        obtain ⟨F2, b2, a2, k1, k2, klen⟩ := ih F1 b1 a1 (i1 + 1) mem1
        exact ⟨F2, b2, a2, k1, k2, by omega⟩
      | thrown ex => exact ⟨F1, b1, a1, rfl, rfl, hlen⟩
      | invalid_read => exact ⟨F1, b1, a1, rfl, rfl, hlen⟩
      | unfinished => exact ⟨F1, b1, a1, rfl, rfl, hlen⟩

/-- C16: `flag_argument::parse` returns the cursor and the store it was given, whether or
not the flag matches, and `is_valid` is true in every state. Consequently a flag takes no
token away from the other descriptors: `command_line::parse` ends the same way, leaves the
same stores and leaves every other descriptor in the same state as in the context without
the flag. On `["-v", "-c", "5"]` the flag `"-v"` is set and the integer descriptor `"-c"`
resolves to 5. -/
theorem flag_consumes_nothing (a : flag_argument) (tokens : List String) (i e : Nat)
    (m : Nat → Bool) (cl without : command_line) (before after : List argument)
    (F : flag_argument) (T : List String) (mem : memory) :
    ((a.parse tokens i e m).2.2.1 = i ∧ (a.parse tokens i e m).2.2.2 = m ∧
      a.is_valid = true ∧ (a.parse tokens i e m).2.1.is_valid = true) ∧
    (cl.arguments = before ++ argument.flag F :: after → without.arguments = before ++ after →
      (cl.parse T mem).1 = (without.parse T mem).1 ∧
      (cl.parse T mem).2.2 = (without.parse T mem).2.2 ∧
      (cl.parse T mem).2.1.arguments.eraseIdx before.length =
        (without.parse T mem).2.1.arguments) ∧
    ((flag_then_count_command_line.parse ["-v", "-c", "5"] zero_memory).1 = .normal ∧
      (flag_then_count_command_line.parse ["-v", "-c", "5"] zero_memory).2.1.arguments =
        [.flag { v_flag with value := true },
         .int_value { count_argument with value := some 5 }]) := by
  refine ⟨⟨?_, ?_, rfl, rfl⟩, ?_, ⟨?_, ?_⟩⟩
  · unfold flag_argument.parse
    split
    · split
      · rfl
      · split <;> rfl
    · rfl
  · unfold flag_argument.parse
    split
    · split
      · rfl
      · split <;> rfl
    · rfl
  · intro hcl hw
    obtain ⟨F1, b1, a1, h1, h2, hlen⟩ :=
      parse_loop_flag_transparent T T.length F before after 0 mem
    simp only [command_line.parse, hcl, hw]
    rw [h1, h2]
    refine ⟨rfl, rfl, ?_⟩
    simp only
    rw [← hlen, List.eraseIdx_append_of_length_le (le_refl _)]
    simp
  · decide
  · rfl

/-- Scenario for C16: the integer descriptor `"-c"` ends the same on `["-v", "-c", "5"]`
with and without the flag `"-v"` registered before it. -/
theorem flag_consumes_nothing_witness :
    (flag_then_count_command_line.parse ["-v", "-c", "5"] zero_memory).2.1.arguments.eraseIdx
        ([] : List argument).length =
      (count_command_line.parse ["-v", "-c", "5"] zero_memory).2.1.arguments :=
  ((flag_consumes_nothing v_flag ["-v"] 0 1 zero_memory.bools flag_then_count_command_line
    count_command_line [] [.int_value count_argument] v_flag ["-v", "-c", "5"]
    zero_memory).2.1 rfl rfl).2.2

/-- C17: `multi_value_argument::parse` returns normally and leaves the descriptor and the
cursor as they are, for every token sequence and cursor, and `is_valid` is true in every
state. A context of multi-value descriptors is left unchanged by `command_line::parse`,
and the required descriptor `"-m"` is unchanged and valid after tokens with and without
its tag. -/
theorem multi_value_inert {T : Type} (a : multi_value_argument T) (tokens : List String)
    (i e : Nat) (cl : command_line) (args : List String) (mem : memory) :
    a.parse tokens i e = (.normal, a, i) ∧ a.is_valid = true ∧
    ((∀ x ∈ cl.arguments, (∃ b, x = argument.multi_int b) ∨ (∃ b, x = argument.multi_string b)) →
      cl.parse args mem = (.normal, cl, mem) ∧ (∀ x ∈ cl.arguments, x.is_valid = true)) ∧
    (required_multi_argument.is_required = true ∧
      required_multi_argument.is_valid = true ∧
      required_multi_command_line.parse ["-m", "1", "-m", "2"] zero_memory =
        (.normal, required_multi_command_line, zero_memory) ∧
      required_multi_command_line.parse ["prog"] zero_memory =
        (.normal, required_multi_command_line, zero_memory)) := by
  refine ⟨rfl, rfl, ?_, rfl, rfl, rfl, rfl⟩
  intro h
  constructor
  · have hs : ∀ (xs : List argument),
        (∀ x ∈ xs, (∃ b, x = argument.multi_int b) ∨ (∃ b, x = argument.multi_string b)) →
        ∀ j, sweep args args.length xs j mem = (.normal, xs, j, mem) := by
      intro xs
      induction xs with
      | nil => intro _ j; rfl
      | cons x rest ih =>
        intro hx j
        have hr := ih (fun y hy => hx y (by simp [hy])) j
        rcases hx x (by simp) with ⟨b, rfl⟩ | ⟨b, rfl⟩
        · rw [sweep]
          simp only [argument.parse, multi_value_argument.parse, hr]
        · rw [sweep]
          simp only [argument.parse, multi_value_argument.parse, hr]
    have hl := parse_loop_skip args args.length cl.arguments mem args.length args.length 0
      (by omega) (le_refl _) (fun j _ _ => hs cl.arguments h j)
    simp only [command_line.parse, hl, Nat.sub_self, Nat.zero_add, parse_loop_end]
  · intro x hx
    rcases h x hx with ⟨b, rfl⟩ | ⟨b, rfl⟩ <;> rfl

/-- Scenario for C17: the context holding the required descriptor `"-m"`. -/
theorem multi_value_inert_witness :
    required_multi_command_line.parse ["-m", "1"] zero_memory =
      (.normal, required_multi_command_line, zero_memory) ∧
    (∀ x ∈ required_multi_command_line.arguments, x.is_valid = true) :=
  (multi_value_inert required_multi_argument ["-m", "1"] 0 2 required_multi_command_line
    ["-m", "1"] zero_memory).2.2.1 (by
      intro x hx
      simp only [required_multi_command_line, List.mem_singleton] at hx
      exact Or.inl ⟨_, hx⟩)

/-! ## Last occurrence, unset tags, `set_required` -/

theorem reference_scan_pair (s l t v : String) (rest : List String) (r : Option String) :
    reference_scan s l (t :: v :: rest) r =
      if t == s || t == l then reference_scan s l rest (some v)
      else reference_scan s l (v :: rest) r := by
  rw [reference_scan]

/-- The loop over a single text descriptor computes the reference scan of the tokens
that are left. -/
theorem parse_loop_string_scan (tokens : List String) :
    ∀ (n i fuel : Nat) (a : value_argument String) (mem : memory),
      tokens.length - i ≤ n → i ≤ tokens.length → tokens.length - i ≤ fuel →
      (parse_loop tokens tokens.length fuel [.string_value a] i mem).1 = .normal ∧
      (parse_loop tokens tokens.length fuel [.string_value a] i mem).2.1 =
        [.string_value
          { a with value := reference_scan a.tag a.long_tag (tokens.drop i) a.value }] := by
  intro n
  induction n with
  | zero =>
    intro i fuel a mem hn hi _
    have : i = tokens.length := by omega
    subst this
    rw [parse_loop_end]
    simp [reference_scan]
  | succ n ih =>
    intro i fuel a mem hn hi hf
    by_cases he : i = tokens.length
    · subst he
      rw [parse_loop_end]
      simp [reference_scan]
    · have hlt : i < tokens.length := by omega
      have hdrop : tokens.drop i = tokens[i] :: tokens.drop (i + 1) := by simp
      obtain ⟨f, rfl⟩ : ∃ f, fuel = f + 1 := ⟨fuel - 1, by omega⟩
      by_cases h1 : i + 1 < tokens.length
      · have hdrop1 : tokens.drop (i + 1) = tokens[i + 1] :: tokens.drop (i + 1 + 1) := by simp
        have g0 : tokens[i]? = some tokens[i] := List.getElem?_eq_getElem hlt
        have g1 : tokens[i + 1]? = some tokens[i + 1] := List.getElem?_eq_getElem h1
        rw [parse_loop_step tokens tokens.length f _ i mem he, hdrop, hdrop1, reference_scan_pair]
        by_cases hm : (tokens[i] == a.tag || tokens[i] == a.long_tag) = true
        · have ht : tokens[i] = a.tag ∨ tokens[i] = a.long_tag := by
            simpa using hm
          rw [sweep_string_hit a tokens i mem _ _ g0 g1 ht]
          simp only [hm, if_true]
          exact ih (i + 1 + 1) f { a with value := some tokens[i + 1] } _ (by omega) (by omega)
            (by omega)
        · have ht : ∀ tok, tokens[i]? = some tok → tok ≠ a.tag ∧ tok ≠ a.long_tag := by
            intro tok htok
            rw [g0] at htok
            cases htok
            simpa using hm
          rw [sweep_string_miss a tokens i mem (Or.inr ht)]
          simp only [hm]
          have := ih (i + 1) f a mem (by omega) (by omega) (by omega)
          rw [hdrop1] at this
          exact this
      · have hl := parse_loop_string_no_match a tokens mem (f + 1) i hi hf
          (fun j hj1 hj2 => Or.inl (by omega))
        have hnil : tokens.drop (i + 1) = [] := List.drop_eq_nil_of_le (by omega)
        rw [hl, hdrop, hnil]
        simp [reference_scan]

/-- C18: in a context whose only descriptor is a text descriptor `V`, `command_line::parse`
ends normally on every token sequence and leaves `V` with the value the reference scan
yields, started from the value `V` had (none for a fresh descriptor). With `s` a tag and
`a`, `b` not tags, `[s, a, s, b]` yields `b`, while `[s, s, b]` yields `s`. -/
theorem last_occurrence_wins (V : value_argument String) (cl : command_line)
    (T : List String) (mem : memory) (s l a b : String)
    (hcl : cl.arguments = [argument.string_value V]) :
    ((cl.parse T mem).1 = .normal ∧
      (cl.parse T mem).2.1.arguments =
        [.string_value
          { V with value := reference_scan V.get_tag V.get_long_tag T V.value }]) ∧
    (a ≠ s → a ≠ l → reference_scan s l [s, a, s, b] none = some b) ∧
    reference_scan s l [s, s, b] none = some s := by
  refine ⟨?_, ?_, ?_⟩
  · have h := parse_loop_string_scan T T.length 0 T.length V mem (by omega) (Nat.zero_le _)
      (by omega)
    simp only [command_line.parse, hcl, value_argument.get_tag, value_argument.get_long_tag]
    simpa using h
  · intro h1 h2
    simp [reference_scan, h1, h2]
  · simp [reference_scan]

/-- Scenario for C18: the text descriptor `"-a"` on `["-a", "x", "-a", "y"]` and on
`["-a", "-a", "y"]`. -/
theorem last_occurrence_wins_witness :
    (a_command_line.parse ["-a", "x", "-a", "y"] zero_memory).2.1.arguments =
      [.string_value { a_argument with value := some "y" }] ∧
    (a_command_line.parse ["-a", "-a", "y"] zero_memory).2.1.arguments =
      [.string_value { a_argument with value := some "-a" }] :=
  ⟨(last_occurrence_wins a_argument a_command_line ["-a", "x", "-a", "y"] zero_memory
      "-a" "" "x" "y" rfl).1.2,
   (last_occurrence_wins a_argument a_command_line ["-a", "-a", "y"] zero_memory
      "-a" "" "x" "y" rfl).1.2⟩

/-- C19: a freshly constructed descriptor has empty tags, and a flag or value descriptor
one of whose tags is empty treats the empty token as its tag. At any cursor holding the
empty token, the last position included, such a flag becomes true, and a flag not yet set
becomes true exactly when one of its tags is empty. When another token follows, such a
value descriptor takes that token as its value, and a value descriptor moves the cursor
past the empty token exactly when one of its tags is empty. On `[""]` the flag `"-v"`, which
has only its short tag set, becomes true; on `["", "y"]` the text descriptor `"-a"`, which
has only its short tag set, resolves to `"y"`. -/
theorem unset_tag_matches_empty_token {T : Type} [token_value T] (F : flag_argument)
    (a : value_argument T) (tokens : List String) (i : Nat) (m : Nat → Bool) (mem : Nat → T)
    (n : String)
    (h0 : tokens[i]? = some "") :
    (((value_argument.construct n : value_argument T).get_tag = "" ∧
        (value_argument.construct n : value_argument T).get_long_tag = "") ∧
      (({ name := n } : flag_argument).get_tag = "" ∧
        ({ name := n } : flag_argument).get_long_tag = "")) ∧
    ((F.get_tag = "" ∨ F.get_long_tag = "") →
      (F.parse tokens i tokens.length m).2.1.get_value = true) ∧
    (F.value = false →
      ((F.parse tokens i tokens.length m).2.1.get_value = true ↔
        (F.get_tag = "" ∨ F.get_long_tag = ""))) ∧
    (∀ (raw : String) (v : T), tokens[i + 1]? = some raw →
      (token_value.convert raw : Option T) = some v →
      (a.get_tag = "" ∨ a.get_long_tag = "") →
      (a.parse tokens i tokens.length mem).2.1.value = some v) ∧
    (∀ raw : String, tokens[i + 1]? = some raw →
      ((a.parse tokens i tokens.length mem).2.2.1 = i + 1 ↔
        (a.get_tag = "" ∨ a.get_long_tag = ""))) ∧
    ((v_flag_command_line.parse [""] zero_memory).1 = .normal ∧
      (v_flag_command_line.parse [""] zero_memory).2.1.arguments =
        [.flag { v_flag with value := true }] ∧
      (a_command_line.parse ["", "y"] zero_memory).1 = .normal ∧
      (a_command_line.parse ["", "y"] zero_memory).2.1.arguments =
        [.string_value { a_argument with value := some "y" }]) := by
  have hF := flag_parse_at F tokens i m "" h0
  have hsym : (a.get_tag = "" ∨ a.get_long_tag = "") → ("" = a.tag ∨ "" = a.long_tag) := by
    intro h
    rcases h with h | h
    · exact Or.inl h.symm
    · exact Or.inr h.symm
  refine ⟨⟨⟨rfl, rfl⟩, ⟨rfl, rfl⟩⟩, ?_, ?_, ?_, ?_, ⟨?_, ?_, ?_, ?_⟩⟩
  · intro h
    rw [hF]
    simp only [flag_argument.offered, flag_argument.get_value, flag_argument.get_tag,
      flag_argument.get_long_tag] at h ⊢
    rcases h with h | h <;> simp [h]
  · intro hval
    rw [hF]
    simp only [flag_argument.offered, flag_argument.get_value, flag_argument.get_tag,
      flag_argument.get_long_tag, hval, Bool.false_or, List.any_cons, List.any_nil,
      Bool.or_false, Bool.or_eq_true, beq_iff_eq]
    constructor
    · rintro (h | h)
      · exact Or.inl h.symm
      · exact Or.inr h.symm
    · rintro (h | h)
      · exact Or.inl h.symm
      · exact Or.inr h.symm
  · intro raw v h1 hv h
    rw [value_parse_hit a tokens i mem "" raw v h0 h1 (hsym h) hv]
  · intro raw h1
    constructor
    · intro hc
      by_contra hne
      have hm : tokens.length ≤ i + 1 ∨
          ∀ tok, tokens[i]? = some tok → tok ≠ a.tag ∧ tok ≠ a.long_tag := by
        right
        intro tok htok
        rw [h0] at htok
        cases htok
        simp only [value_argument.get_tag, value_argument.get_long_tag, not_or] at hne
        exact ⟨fun h => hne.1 h.symm, fun h => hne.2 h.symm⟩
      rw [value_parse_miss a tokens i mem hm] at hc
      simp at hc
    · intro h
      cases hv : (token_value.convert raw : Option T) with
      | none => rw [value_parse_throw a tokens i mem "" raw h0 h1 (hsym h) hv]
      | some v => rw [value_parse_hit a tokens i mem "" raw v h0 h1 (hsym h) hv]
  · decide
  · rfl
  · decide
  · rfl

/-- Scenario for C19: on `[""]` the flag `"-v"` (long tag unset) becomes true at the last
position; on `["", "y"]` the text descriptor `"-a"` (long tag unset) resolves to `"y"`. -/
theorem unset_tag_matches_empty_token_witness :
    (v_flag.parse [""] 0 [""].length zero_memory.bools).2.1.get_value = true ∧
    (a_argument.parse ["", "y"] 0 ["", "y"].length zero_memory.strings).2.1.value =
      some "y" :=
  have h := unset_tag_matches_empty_token v_flag a_argument [""] 0 zero_memory.bools
    zero_memory.strings "n" rfl
  have h2 := unset_tag_matches_empty_token v_flag a_argument ["", "y"] 0 zero_memory.bools
    zero_memory.strings "n" rfl
  ⟨h.2.1 (Or.inr rfl), h2.2.2.2.1 "y" "y" rfl rfl (Or.inr rfl)⟩

/-- C20: `set_required(b)` throws exactly when a default value is present, whatever `b`
is: on a descriptor with a default it throws `std::logic_error` and changes nothing, also
for `b = false`; on a descriptor without default it returns normally and sets `required`
to `b`, leaving every other member as it was. -/
theorem set_required_throws_iff_default {T : Type} (a : value_argument T) (b : Bool) :
    ((∃ e, (a.set_required b).1 = .thrown e) ↔ a.default_value.isSome = true) ∧
    a.set_required b =
      (if a.default_value.isSome then
        (.thrown (.logic_error "setting required on argument with default does not make sense"),
          a)
       else (.normal, { a with required := b })) ∧
    count_argument.set_required false =
      (.thrown (.logic_error "setting required on argument with default does not make sense"),
        count_argument) := by
  refine ⟨?_, rfl, rfl⟩
  unfold value_argument.set_required
  by_cases h : a.default_value.isSome = true <;> simp [h]

end px
